import Mathlib

/-!
Vendor tag registry (`modules/camera/VendorTags.cpp`).

A shallow embedding of the static vendor tag table and of the five operations of
`default_camera_hal::VendorTags`, together with proofs of the properties the
specification states about them.

Conventions of the embedding.

* `uint32_t` values are natural numbers below `2 ^ 32`; every operation that can wrap is
  written with an explicit `% 2 ^ 32`.  `int` values are integers; the conversions between
  the two are `toInt32` and `ofInt32`.
* `const char*` is `Option String` and a pointer to a `Section` is `Option Section`;
  `none` is `NULL`.
* A pointer to an `Entry` is an `EntryPtr`: the array it points into and the index of the
  slot.  Reading through it yields `Outcome.fault` when the slot lies outside the array,
  so that an out-of-bounds read is never mistaken for a `NULL` result.
* The constants of `system/camera_metadata.h` (the vendor base and the numeric codes of
  the value types) do not occur in the sources; they are the parameter `MetadataHeader`.
  The constants of `VendorTags.h` are modelled from the specification, relative to the
  vendor base.
* `ALOGE` diagnostics of the lookup functions influence no result and are left out; the
  one of `getAllTags` is recorded, being the only trace of a rejected call.
-/

namespace default_camera_hal

/-! ## Machine integers -/

/-- Subtraction of two `uint32_t` values, wrapping modulo `2 ^ 32`. -/
def sub32 (a b : Nat) : Nat := (a % 2 ^ 32 + (2 ^ 32 - b % 2 ^ 32)) % 2 ^ 32

/-- Conversion of a `uint32_t` value to `int` (two's complement). -/
def toInt32 (n : Nat) : Int :=
  if n % 2 ^ 32 < 2 ^ 31 then ((n % 2 ^ 32 : Nat) : Int) else ((n % 2 ^ 32 : Nat) : Int) - 2 ^ 32

/-- Conversion of an `int` value to `uint32_t`. -/
def ofInt32 (i : Int) : Nat := (i % 2 ^ 32).toNat

/-! ## Constants of the headers -/

/-- Constants that `VendorTags.cpp` takes from `system/camera_metadata.h`: the first tag
value reserved for vendor use and the numeric codes of the value types. -/
structure MetadataHeader where
  VENDOR_SECTION_START : Nat
  TYPE_BYTE : Nat
  TYPE_INT32 : Nat
  TYPE_FLOAT : Nat
  TYPE_INT64 : Nat
  TYPE_DOUBLE : Nat
  TYPE_RATIONAL : Nat
deriving DecidableEq, Repr

/-- The values these constants have in the Android camera metadata header. -/
def androidHeader : MetadataHeader where
  VENDOR_SECTION_START := 0x80000000
  TYPE_BYTE := 0
  TYPE_INT32 := 1
  TYPE_FLOAT := 2
  TYPE_INT64 := 3
  TYPE_DOUBLE := 4
  TYPE_RATIONAL := 5

/-- Modelled from the spec: `VendorTags.h` is missing; index of the first of the three
declared sections. -/
def DEMO_WIZARDRY : Nat := 0

/-- Modelled from the spec: `VendorTags.h` is missing; index of the second section. -/
def DEMO_SORCERY : Nat := 1

/-- Modelled from the spec: `VendorTags.h` is missing; index of the third section. -/
def DEMO_MAGIC : Nat := 2

/-- Modelled from the spec: `VendorTags.h` is missing; the number of declared sections
(three sections in the spec's table). -/
def DEMO_SECTION_COUNT : Nat := 3

/-- Modelled from the spec: `VendorTags.h` is missing; each section occupies a fixed
65536-slot block counted from the vendor base, the first one starting at the base. -/
def DEMO_WIZARDRY_START (m : MetadataHeader) : Nat :=
  m.VENDOR_SECTION_START + DEMO_WIZARDRY * 0x10000

/-- Modelled from the spec: `VendorTags.h` is missing; first tag of section 1. -/
def DEMO_WIZARDRY_DIMENSION_SIZE (m : MetadataHeader) : Nat := DEMO_WIZARDRY_START m

/-- Modelled from the spec: `VendorTags.h` is missing; second tag of section 1. -/
def DEMO_WIZARDRY_DIMENSIONS (m : MetadataHeader) : Nat := DEMO_WIZARDRY_START m + 1

/-- Modelled from the spec: `VendorTags.h` is missing; third tag of section 1. -/
def DEMO_WIZARDRY_FAMILIAR (m : MetadataHeader) : Nat := DEMO_WIZARDRY_START m + 2

/-- Modelled from the spec: `VendorTags.h` is missing; fourth tag of section 1. -/
def DEMO_WIZARDRY_FIRE (m : MetadataHeader) : Nat := DEMO_WIZARDRY_START m + 3

/-- Modelled from the spec: `VendorTags.h` is missing; section 1 has 4 entries, its range
is half-open. -/
def DEMO_WIZARDRY_END (m : MetadataHeader) : Nat := DEMO_WIZARDRY_START m + 4

/-- Modelled from the spec: `VendorTags.h` is missing; section 2 starts one 65536-block
after the vendor base. -/
def DEMO_SORCERY_START (m : MetadataHeader) : Nat :=
  m.VENDOR_SECTION_START + DEMO_SORCERY * 0x10000

/-- Modelled from the spec: `VendorTags.h` is missing; first tag of section 2. -/
def DEMO_SORCERY_DIFFICULTY (m : MetadataHeader) : Nat := DEMO_SORCERY_START m

/-- Modelled from the spec: `VendorTags.h` is missing; second tag of section 2. -/
def DEMO_SORCERY_LIGHT (m : MetadataHeader) : Nat := DEMO_SORCERY_START m + 1

/-- Modelled from the spec: `VendorTags.h` is missing; section 2 has 2 entries. -/
def DEMO_SORCERY_END (m : MetadataHeader) : Nat := DEMO_SORCERY_START m + 2

/-- Modelled from the spec: `VendorTags.h` is missing; section 3 starts two 65536-blocks
after the vendor base. -/
def DEMO_MAGIC_START (m : MetadataHeader) : Nat :=
  m.VENDOR_SECTION_START + DEMO_MAGIC * 0x10000

/-- Modelled from the spec: `VendorTags.h` is missing; first tag of section 3. -/
def DEMO_MAGIC_CARD_TRICK (m : MetadataHeader) : Nat := DEMO_MAGIC_START m

/-- Modelled from the spec: `VendorTags.h` is missing; second tag of section 3. -/
def DEMO_MAGIC_LEVITATION (m : MetadataHeader) : Nat := DEMO_MAGIC_START m + 1

/-- Modelled from the spec: `VendorTags.h` is missing; section 3 has 2 entries. -/
def DEMO_MAGIC_END (m : MetadataHeader) : Nat := DEMO_MAGIC_START m + 2

/-! ## The static tag table -/

/-- Describes a single vendor tag entry: `name` is a `const char*`, `type` a `uint8_t`. -/
structure Entry where
  name : Option String
  type : Nat
deriving DecidableEq, Repr

/-- Describes a vendor tag section: `start` and `end_` are `uint32_t`, `tags` is the entry
array the section points to. -/
structure Section where
  name : Option String
  start : Nat
  end_ : Nat
  tags : List Entry
deriving DecidableEq, Repr

/-- The zero-initialized `Entry` that C gives to a slot no initializer designates. -/
def Entry.zero : Entry := ⟨none, 0⟩

/-- The zero-initialized `Section`. -/
def Section.zero : Section := ⟨none, 0, 0, []⟩

/-- The entry initializer `{name, type}`: the type code is stored in a `uint8_t`. -/
def Entry.init (name : String) (type : Nat) : Entry := ⟨some name, type % 256⟩

/-- The section initializer `{name, start, end, tags}`: the bounds are stored in
`uint32_t` fields. -/
def Section.init (name : String) (start stop : Nat) (tags : List Entry) : Section :=
  ⟨some name, start % 2 ^ 32, stop % 2 ^ 32, tags⟩

/-- An array of declared size `n` given by designated initializers `[index] = value`:
every slot starts zero-initialized and each initializer, in order, overwrites its slot. -/
def designated {α : Type} (n : Nat) (zero : α) (inits : List (Nat × α)) : List α :=
  inits.foldl (fun arr p => arr.set p.1 p.2) (List.replicate n zero)

/-- The initializers of `DemoWizardry`, each with the index it designates. -/
def DemoWizardryInit (m : MetadataHeader) : List (Nat × Entry) :=
  [ (DEMO_WIZARDRY_DIMENSION_SIZE m - DEMO_WIZARDRY_START m,
      Entry.init "dimensionSize" m.TYPE_INT32),
    (DEMO_WIZARDRY_DIMENSIONS m - DEMO_WIZARDRY_START m,
      Entry.init "dimensions" m.TYPE_INT32),
    (DEMO_WIZARDRY_FAMILIAR m - DEMO_WIZARDRY_START m,
      Entry.init "familiar" m.TYPE_BYTE),
    (DEMO_WIZARDRY_FIRE m - DEMO_WIZARDRY_START m,
      Entry.init "fire" m.TYPE_RATIONAL) ]

/-- Entry array of section `demo.wizardry`. -/
def DemoWizardry (m : MetadataHeader) : List Entry :=
  designated (DEMO_WIZARDRY_END m - DEMO_WIZARDRY_START m) Entry.zero (DemoWizardryInit m)

/-- The initializers of `DemoSorcery`, each with the index it designates. -/
def DemoSorceryInit (m : MetadataHeader) : List (Nat × Entry) :=
  [ (DEMO_SORCERY_DIFFICULTY m - DEMO_SORCERY_START m,
      Entry.init "difficulty" m.TYPE_INT64),
    (DEMO_SORCERY_LIGHT m - DEMO_SORCERY_START m,
      Entry.init "light" m.TYPE_BYTE) ]

/-- Entry array of section `demo.sorcery`. -/
def DemoSorcery (m : MetadataHeader) : List Entry :=
  designated (DEMO_SORCERY_END m - DEMO_SORCERY_START m) Entry.zero (DemoSorceryInit m)

/-- The initializers of `DemoMagic`, each with the index it designates. -/
def DemoMagicInit (m : MetadataHeader) : List (Nat × Entry) :=
  [ (DEMO_MAGIC_CARD_TRICK m - DEMO_MAGIC_START m,
      Entry.init "cardTrick" m.TYPE_DOUBLE),
    (DEMO_MAGIC_LEVITATION m - DEMO_MAGIC_START m,
      Entry.init "levitation" m.TYPE_FLOAT) ]

/-- Entry array of section `demo.magic`. -/
def DemoMagic (m : MetadataHeader) : List Entry :=
  designated (DEMO_MAGIC_END m - DEMO_MAGIC_START m) Entry.zero (DemoMagicInit m)

/-- The initializer lists of the entry arrays, in the order of the sections that point
to the arrays. -/
def DemoInits (m : MetadataHeader) : List (List (Nat × Entry)) :=
  [DemoWizardryInit m, DemoSorceryInit m, DemoMagicInit m]

/-- Slot `k` of the entry array `tags` is declared by the initializer list `inits`:
exactly one initializer designates index `k`, the slot holds the entry of that
initializer, and this entry has a name, so it is not the zero-initialized entry. -/
def SlotDeclared (inits : List (Nat × Entry)) (tags : List Entry) (k : Nat) : Prop :=
  ∃ p : Nat × Entry, inits.filter (fun q => q.1 = k) = [p] ∧ p.1 = k ∧
    tags[k]? = some p.2 ∧ p.2.name ≠ none ∧ tags[k]? ≠ some Entry.zero

/-- Array of all sections. -/
def DemoSections (m : MetadataHeader) : List Section :=
  designated DEMO_SECTION_COUNT Section.zero
    [ (DEMO_WIZARDRY,
        Section.init "demo.wizardry" (DEMO_WIZARDRY_START m) (DEMO_WIZARDRY_END m)
          (DemoWizardry m)),
      (DEMO_SORCERY,
        Section.init "demo.sorcery" (DEMO_SORCERY_START m) (DEMO_SORCERY_END m)
          (DemoSorcery m)),
      (DEMO_MAGIC,
        Section.init "demo.magic" (DEMO_MAGIC_START m) (DEMO_MAGIC_END m)
          (DemoMagic m)) ]

/-- The element `DemoSections[i]` for an index below the declared size of the array. -/
def sectionAt (m : MetadataHeader) (i : Nat) (h : i < DEMO_SECTION_COUNT) : Section :=
  (DemoSections m).get ⟨i, by simpa [DemoSections, designated] using h⟩

/-! ## Lookups -/

/-- Get a static handle to a specific vendor tag section. -/
def getSection (m : MetadataHeader) (tag : Nat) : Option Section :=
  let sec := sub32 tag m.VENDOR_SECTION_START >>> 16
  if tag < m.VENDOR_SECTION_START then
    none
  else if h : sec ≥ DEMO_SECTION_COUNT then
    none
  else
    some (sectionAt m sec (Nat.lt_of_not_ge h))

/-- A `const Entry*` other than `NULL`: the address of slot `index` of the array `tags`. -/
structure EntryPtr where
  tags : List Entry
  index : Int
deriving DecidableEq, Repr

/-- What a function that reads through an entry pointer does: it returns a value, or it
reads outside the entry array (undefined behaviour in C). -/
inductive Outcome (α : Type) where
  | ret (a : α) : Outcome α
  | fault : Outcome α
deriving DecidableEq, Repr

/-- The entry a pointer designates, when the slot lies inside the array. -/
def EntryPtr.read (p : EntryPtr) : Option Entry :=
  if 0 ≤ p.index then p.tags[p.index.toNat]? else none

/-- Get a static handle to a specific vendor tag entry. -/
def getEntry (m : MetadataHeader) (tag : Nat) : Option EntryPtr :=
  match getSection m tag with
  | none => none
  | some sec =>
    if tag ≥ sec.end_ then
      none
    else
      let index : Int := toInt32 (sub32 tag sec.start)
      some ⟨sec.tags, index⟩

/-- The name of the section `tag` decodes to, or `NULL`. -/
def getSectionName (m : MetadataHeader) (tag : Nat) : Option String :=
  match getSection m tag with
  | none => none
  | some sec => sec.name

/-- The name of the entry `tag` decodes to, or `NULL`. -/
def getTagName (m : MetadataHeader) (tag : Nat) : Outcome (Option String) :=
  match getEntry m tag with
  | none => .ret none
  | some entry =>
    match entry.read with
    | some e => .ret e.name
    | none => .fault

/-- The type code of the entry `tag` decodes to, or `-1`. -/
def getTagType (m : MetadataHeader) (tag : Nat) : Outcome Int :=
  match getEntry m tag with
  | none => .ret (-1)
  | some entry =>
    match entry.read with
    | some e => .ret (e.type : Int)
    | none => .fault

/-! ## The registry -/

/-- The registry object; `mTagCount` is an `int`, the total number of vendor tags. -/
structure VendorTags where
  mTagCount : Int
deriving DecidableEq, Repr

/-- The loop `for (int i = 0; i < DEMO_SECTION_COUNT; i++) mTagCount += end - start` of
the constructor, from index `i` on.  The difference is a `uint32_t`, so the sum is formed
modulo `2 ^ 32` and converted back to `int`. -/
def countLoop (m : MetadataHeader) (i : Nat) (mTagCount : Int) : Int :=
  if h : i < DEMO_SECTION_COUNT then
    countLoop m (i + 1)
      (toInt32 ((ofInt32 mTagCount
        + sub32 (sectionAt m i h).end_ (sectionAt m i h).start) % 2 ^ 32))
  else
    mTagCount
termination_by DEMO_SECTION_COUNT - i

/-- The constructor `VendorTags::VendorTags`: `mTagCount` starts at 0 and the loop adds the size of each section. -/
def VendorTags.init (m : MetadataHeader) : VendorTags :=
  ⟨countLoop m 0 0⟩

/-- The total number of vendor tags. -/
def VendorTags.getTagCount (self : VendorTags) : Int :=
  self.mTagCount

/-- The loop `for (uint32_t tag = start; tag < end; tag++) *tag_array++ = tag` from the
value `tag` on; `out` lists the cells stored so far, in the order of their addresses, and
`tag++` wraps modulo `2 ^ 32`.  Each test of the loop condition takes one unit of fuel;
`none` means the fuel ran out. -/
def tagLoop : Nat → Nat → Nat → List Nat → Option (List Nat)
  | 0, _, _, _ => none
  | fuel + 1, stop, tag, out =>
    if tag < stop then
      tagLoop fuel stop ((tag + 1) % 2 ^ 32) (out ++ [tag])
    else
      some out

/-- The loop `for (int i = 0; i < DEMO_SECTION_COUNT; i++)` of `getAllTags`, from index
`i` on; every run of the inner loop gets `fuel`. -/
def allTagsLoop (m : MetadataHeader) (fuel : Nat) (i : Nat) (out : List Nat) :
    Option (List Nat) :=
  if h : i < DEMO_SECTION_COUNT then
    match tagLoop fuel (sectionAt m i h).end_ (sectionAt m i h).start out with
    | none => none
    | some out1 => allTagsLoop m fuel (i + 1) out1
  else
    some out
termination_by DEMO_SECTION_COUNT - i

/-- What a call of `getAllTags` leaves behind: the registry object, the `ALOGE` records
it emitted, and the values it stored in the cells `tag_array[0]`, `tag_array[1]`, ... -/
structure AllTags where
  self : VendorTags
  log : List String
  written : List Nat
deriving DecidableEq, Repr

/-- Stores every vendor tag through `tag_array`, a pointer to `uint32_t` cells (`none` is
`NULL`, `some a` the address `a`). -/
def VendorTags.getAllTags (m : MetadataHeader) (fuel : Nat) (self : VendorTags)
    (tag_array : Option Nat) : Option AllTags :=
  match tag_array with
  | none => some ⟨self, ["getAllTags: NULL tag_array"], []⟩
  | some _ =>
    match allTagsLoop m fuel 0 [] with
    | none => none
    | some out => some ⟨self, [], out⟩

/-- The caller's buffer (the cells from `tag_array` on) after the stores `written`. -/
def storeAll (buffer written : List Nat) : List Nat :=
  written ++ buffer.drop written.length

/-- The two loops of `getAllTags` run over an arbitrary section table in place of
`DemoSections`: for each section in turn the inner loop `tagLoop` stores its range;
every run of the inner loop gets `fuel`. -/
def allTagsOver (fuel : Nat) : List Section → List Nat → Option (List Nat)
  | [], out => some out
  | s :: rest, out =>
    match tagLoop fuel s.end_ s.start out with
    | none => none
    | some out1 => allTagsOver fuel rest out1

/-- The variant of `getSection` without its first guard `tag < VENDOR_SECTION_START`:
only the wrapped section index is tested. -/
def getSectionUnguarded (m : MetadataHeader) (tag : Nat) : Option Section :=
  let sec := sub32 tag m.VENDOR_SECTION_START >>> 16
  if h : sec ≥ DEMO_SECTION_COUNT then
    none
  else
    some (sectionAt m sec (Nat.lt_of_not_ge h))

/-! ## The table, evaluated -/

theorem DemoWizardry_eq (m : MetadataHeader) :
    DemoWizardry m =
      [Entry.init "dimensionSize" m.TYPE_INT32, Entry.init "dimensions" m.TYPE_INT32,
        Entry.init "familiar" m.TYPE_BYTE, Entry.init "fire" m.TYPE_RATIONAL] := by
  simp only [DemoWizardry, DemoWizardryInit, DEMO_WIZARDRY_END, DEMO_WIZARDRY_DIMENSION_SIZE,
    DEMO_WIZARDRY_DIMENSIONS, DEMO_WIZARDRY_FAMILIAR, DEMO_WIZARDRY_FIRE,
    Nat.add_sub_cancel_left, Nat.sub_self]
  rfl

theorem DemoSorcery_eq (m : MetadataHeader) :
    DemoSorcery m =
      [Entry.init "difficulty" m.TYPE_INT64, Entry.init "light" m.TYPE_BYTE] := by
  simp only [DemoSorcery, DemoSorceryInit, DEMO_SORCERY_END, DEMO_SORCERY_DIFFICULTY, DEMO_SORCERY_LIGHT,
    Nat.add_sub_cancel_left, Nat.sub_self]
  rfl

theorem DemoMagic_eq (m : MetadataHeader) :
    DemoMagic m =
      [Entry.init "cardTrick" m.TYPE_DOUBLE, Entry.init "levitation" m.TYPE_FLOAT] := by
  simp only [DemoMagic, DemoMagicInit, DEMO_MAGIC_END, DEMO_MAGIC_CARD_TRICK, DEMO_MAGIC_LEVITATION,
    Nat.add_sub_cancel_left, Nat.sub_self]
  rfl

theorem DemoSections_eq (m : MetadataHeader) :
    DemoSections m =
      [Section.init "demo.wizardry" (DEMO_WIZARDRY_START m) (DEMO_WIZARDRY_END m)
          (DemoWizardry m),
        Section.init "demo.sorcery" (DEMO_SORCERY_START m) (DEMO_SORCERY_END m)
          (DemoSorcery m),
        Section.init "demo.magic" (DEMO_MAGIC_START m) (DEMO_MAGIC_END m)
          (DemoMagic m)] := rfl

theorem sectionAt_eq_getElem (m : MetadataHeader) (i : Nat) (h : i < DEMO_SECTION_COUNT) :
    (DemoSections m)[i]? = some (sectionAt m i h) := by
  unfold sectionAt
  rw [List.get_eq_getElem, List.getElem?_eq_getElem]

theorem sectionAt_zero (m : MetadataHeader) (h : 0 < DEMO_SECTION_COUNT) :
    sectionAt m 0 h =
      Section.init "demo.wizardry" (DEMO_WIZARDRY_START m) (DEMO_WIZARDRY_END m)
        (DemoWizardry m) := rfl

theorem sectionAt_one (m : MetadataHeader) (h : 1 < DEMO_SECTION_COUNT) :
    sectionAt m 1 h =
      Section.init "demo.sorcery" (DEMO_SORCERY_START m) (DEMO_SORCERY_END m)
        (DemoSorcery m) := rfl

theorem sectionAt_two (m : MetadataHeader) (h : 2 < DEMO_SECTION_COUNT) :
    sectionAt m 2 h =
      Section.init "demo.magic" (DEMO_MAGIC_START m) (DEMO_MAGIC_END m)
        (DemoMagic m) := rfl

/-- A tag at or above the vendor base whose 65536-block has index `i < 3` decodes to
`DemoSections[i]`. -/
theorem getSection_block (m : MetadataHeader) (t i : Nat) (ht : t < 2 ^ 32)
    (hi : i < DEMO_SECTION_COUNT)
    (hlo : m.VENDOR_SECTION_START + i * 65536 ≤ t)
    (hhi : t < m.VENDOR_SECTION_START + (i + 1) * 65536) :
    getSection m t = some (sectionAt m i hi) := by
  have hsec : sub32 t m.VENDOR_SECTION_START >>> 16 = i := by
    unfold sub32; rw [Nat.shiftRight_eq_div_pow]; omega
  unfold getSection
  simp only [hsec]
  rw [if_neg (by omega), dif_neg (by omega)]

/-- The three sections are the only elements of the table. -/
theorem DemoSections_getElem (m : MetadataHeader) (i : Nat) (S : Section)
    (h : (DemoSections m)[i]? = some S) :
    ∃ hi : i < DEMO_SECTION_COUNT, S = sectionAt m i hi := by
  have hlen : (DemoSections m).length = DEMO_SECTION_COUNT := rfl
  have hi : i < DEMO_SECTION_COUNT := by
    rw [← hlen]
    by_contra hc
    rw [List.getElem?_eq_none (by omega)] at h
    exact Option.noConfusion h
  refine ⟨hi, ?_⟩
  rw [sectionAt_eq_getElem m i hi] at h
  exact (Option.some.inj h).symm

/-- Bounds and entry array of `DemoSections[i]`, with the wrapping of the stored bounds
made explicit. -/
theorem sectionAt_fields (m : MetadataHeader) (i : Nat) (hi : i < DEMO_SECTION_COUNT) :
    (sectionAt m i hi).start = (m.VENDOR_SECTION_START + i * 65536) % 2 ^ 32 ∧
    (sectionAt m i hi).end_ =
      (m.VENDOR_SECTION_START + i * 65536 + (sectionAt m i hi).tags.length) % 2 ^ 32 ∧
    (sectionAt m i hi).tags.length ≤ 4 := by
  have h3 : i = 0 ∨ i = 1 ∨ i = 2 := by unfold DEMO_SECTION_COUNT at hi; omega
  rcases h3 with rfl | rfl | rfl
  · simp [sectionAt_zero, Section.init, DemoWizardry_eq, DEMO_WIZARDRY_START,
      DEMO_WIZARDRY_END, DEMO_WIZARDRY]
  · simp [sectionAt_one, Section.init, DemoSorcery_eq, DEMO_SORCERY_START,
      DEMO_SORCERY_END, DEMO_SORCERY]
  · simp [sectionAt_two, Section.init, DemoMagic_eq, DEMO_MAGIC_START,
      DEMO_MAGIC_END, DEMO_MAGIC]

/-- Decoding of a tag that lies in the declared range of a section of the table: the
section is found, the entry pointer designates slot `t - S.start` of its array, and that
slot exists. -/
theorem getEntry_declared (m : MetadataHeader) (t i : Nat) (S : Section)
    (ht : t < 2 ^ 32) (hB : m.VENDOR_SECTION_START ≤ t)
    (hS : (DemoSections m)[i]? = some S) (hlo : S.start ≤ t) (hhi : t < S.end_) :
    getSection m t = some S ∧
    getEntry m t = some ⟨S.tags, ((t - S.start : Nat) : Int)⟩ ∧
    t - S.start < S.tags.length := by
  obtain ⟨hi, rfl⟩ := DemoSections_getElem m i S hS
  obtain ⟨hs, he, hl⟩ := sectionAt_fields m i hi
  have hi3 : i < 3 := hi
  rw [hs] at hlo
  rw [he] at hhi
  have hblock : getSection m t = some (sectionAt m i hi) :=
    getSection_block m t i ht hi (by omega) (by omega)
  have hsub : sub32 t (sectionAt m i hi).start = t - (sectionAt m i hi).start := by
    rw [hs]; unfold sub32; omega
  refine ⟨hblock, ?_, by rw [hs]; omega⟩
  unfold getEntry
  rw [hblock]
  simp only [ge_iff_le]
  rw [if_neg (by rw [he]; omega), hsub]
  have h31 : (t - (sectionAt m i hi).start) % 2 ^ 32 < 2 ^ 31 := by rw [hs]; omega
  simp only [toInt32, h31, if_true]
  have hmod : (t - (sectionAt m i hi).start) % 2 ^ 32 = t - (sectionAt m i hi).start := by
    rw [hs]; omega
  rw [hmod]

/-- Every entry of a section of the table carries a name and a `uint8_t` type code. -/
theorem sectionAt_entries (m : MetadataHeader) (i : Nat) (hi : i < DEMO_SECTION_COUNT)
    (e : Entry) (he : e ∈ (sectionAt m i hi).tags) :
    (∃ name : String, e.name = some name) ∧ e.type < 256 := by
  have h3 : i = 0 ∨ i = 1 ∨ i = 2 := by unfold DEMO_SECTION_COUNT at hi; omega
  have hinit : ∀ (n : String) (ty : Nat),
      (∃ name : String, (Entry.init n ty).name = some name) ∧ (Entry.init n ty).type < 256 :=
    fun n ty => ⟨⟨n, rfl⟩, Nat.mod_lt _ (by decide)⟩
  rcases h3 with rfl | rfl | rfl
  · simp only [sectionAt_zero, Section.init, DemoWizardry_eq, List.mem_cons,
      List.mem_singleton, List.not_mem_nil, or_false] at he
    rcases he with rfl | rfl | rfl | rfl <;> exact hinit _ _
  · simp only [sectionAt_one, Section.init, DemoSorcery_eq, List.mem_cons,
      List.mem_singleton, List.not_mem_nil, or_false] at he
    rcases he with rfl | rfl <;> exact hinit _ _
  · simp only [sectionAt_two, Section.init, DemoMagic_eq, List.mem_cons,
      List.mem_singleton, List.not_mem_nil, or_false] at he
    rcases he with rfl | rfl <;> exact hinit _ _

/-- The name of every section of the table. -/
theorem sectionAt_name (m : MetadataHeader) (i : Nat) (hi : i < DEMO_SECTION_COUNT) :
    (sectionAt m i hi).name =
      some (if i = 0 then "demo.wizardry" else if i = 1 then "demo.sorcery"
        else "demo.magic") := by
  have h3 : i = 0 ∨ i = 1 ∨ i = 2 := by unfold DEMO_SECTION_COUNT at hi; omega
  rcases h3 with rfl | rfl | rfl <;> rfl

/-- Reading through a pointer to slot `k` of an array that has a slot `k`. -/
theorem EntryPtr.read_natCast (tags : List Entry) (k : Nat) :
    EntryPtr.read ⟨tags, (k : Int)⟩ = tags[k]? := by
  simp [EntryPtr.read]

/-! ## Lookups of declared tags -/

/-- C1: for every 32-bit tag `t` at or above the vendor base that lies in the range
`[start, end)` of a section `S` of `DemoSections`, `getTagName t` returns the name and
`getTagType t` the type of slot `t - S.start` of the entry array of `S`, neither is the
not-found value (`NULL`, `-1`), and `getSectionName t` returns the name of `S`.  In the
scenario of the spec, `getTagName (B + 2)` is the name of the third entry of section
`demo.wizardry` and `getSectionName (B + 0x20001)` is `demo.magic`. -/
theorem C1_declared_tag_lookup (m : MetadataHeader) :
    (∀ (t i : Nat) (S : Section), t < 2 ^ 32 → m.VENDOR_SECTION_START ≤ t →
      (DemoSections m)[i]? = some S → S.start ≤ t → t < S.end_ →
      ∃ e : Entry, S.tags[t - S.start]? = some e ∧
        getTagName m t = Outcome.ret e.name ∧ e.name ≠ none ∧
        getTagType m t = Outcome.ret (e.type : Int) ∧ getTagType m t ≠ Outcome.ret (-1) ∧
        getSectionName m t = S.name ∧ S.name ≠ none) ∧
    (m.VENDOR_SECTION_START + 0x20001 < 2 ^ 32 →
      (∃ (S : Section) (e : Entry), (DemoSections m)[0]? = some S ∧
        S.name = some "demo.wizardry" ∧ S.tags[2]? = some e ∧
        e.name = some "familiar" ∧
        getTagName m (m.VENDOR_SECTION_START + 2) = Outcome.ret e.name) ∧
      getSectionName m (m.VENDOR_SECTION_START + 0x20001) = some "demo.magic") := by
  have main : ∀ (t i : Nat) (S : Section), t < 2 ^ 32 → m.VENDOR_SECTION_START ≤ t →
      (DemoSections m)[i]? = some S → S.start ≤ t → t < S.end_ →
      ∃ e : Entry, S.tags[t - S.start]? = some e ∧
        getTagName m t = Outcome.ret e.name ∧ e.name ≠ none ∧
        getTagType m t = Outcome.ret (e.type : Int) ∧ getTagType m t ≠ Outcome.ret (-1) ∧
        getSectionName m t = S.name ∧ S.name ≠ none := by
    intro t i S ht hB hS hlo hhi
    obtain ⟨hsec, hent, hlen⟩ := getEntry_declared m t i S ht hB hS hlo hhi
    obtain ⟨hi, rfl⟩ := DemoSections_getElem m i S hS
    have hget : (sectionAt m i hi).tags[t - (sectionAt m i hi).start]?
        = some ((sectionAt m i hi).tags[t - (sectionAt m i hi).start]) :=
      List.getElem?_eq_getElem hlen
    obtain ⟨⟨name, hname⟩, hty⟩ := sectionAt_entries m i hi _ (List.getElem_mem hlen)
    have htype : getTagType m t
        = Outcome.ret (((sectionAt m i hi).tags[t - (sectionAt m i hi).start]).type : Int) := by
      unfold getTagType
      rw [hent]
      simp only [EntryPtr.read_natCast, hget]
    refine ⟨_, hget, ?_, ?_, htype, ?_, ?_, ?_⟩
    · unfold getTagName
      rw [hent]
      simp only [EntryPtr.read_natCast, hget]
    · rw [hname]; exact Option.some_ne_none _
    · rw [htype]
      intro hc
      have := Outcome.ret.inj hc
      omega
    · unfold getSectionName
      rw [hsec]
    · rw [sectionAt_name]; exact Option.some_ne_none _
  refine ⟨main, fun hfit => ⟨?_, ?_⟩⟩
  · have hS := sectionAt_eq_getElem m 0 (by decide)
    obtain ⟨e, he, hn, -, -, -, -, -⟩ := main (m.VENDOR_SECTION_START + 2) 0 _ (by omega)
      (by omega) hS
      (by simp only [sectionAt_zero, Section.init, DEMO_WIZARDRY_START, DEMO_WIZARDRY]; omega)
      (by simp only [sectionAt_zero, Section.init, DEMO_WIZARDRY_START, DEMO_WIZARDRY,
        DEMO_WIZARDRY_END]; omega)
    have hidx : m.VENDOR_SECTION_START + 2 - (sectionAt m 0 (by decide)).start = 2 := by
      simp only [sectionAt_zero, Section.init, DEMO_WIZARDRY_START, DEMO_WIZARDRY]; omega
    rw [hidx] at he
    refine ⟨_, e, hS, rfl, he, ?_, hn⟩
    simp only [sectionAt_zero, Section.init, DemoWizardry_eq] at he
    have := Option.some.inj he
    rw [← this]
    rfl
  · unfold getSectionName
    rw [getSection_block m (m.VENDOR_SECTION_START + 0x20001) 2 (by omega) (by decide)
      (by omega) (by omega)]
    rfl

/-- Instance of C1 at the Android header: tag `0x80000002` lies in the range of section 0,
whose third entry is `familiar` of type `TYPE_BYTE`; tag `0x80020001` is in `demo.magic`. -/
theorem C1_declared_tag_lookup_witness :
    (0x80000002 < 2 ^ 32 ∧ androidHeader.VENDOR_SECTION_START ≤ 0x80000002) ∧
    (∃ (S : Section) (e : Entry), (DemoSections androidHeader)[0]? = some S ∧
      S.start ≤ 0x80000002 ∧ 0x80000002 < S.end_ ∧
      S.tags[0x80000002 - S.start]? = some e ∧
      getTagName androidHeader 0x80000002 = Outcome.ret e.name ∧ e.name ≠ none ∧
      getTagType androidHeader 0x80000002 = Outcome.ret (e.type : Int) ∧
      getTagType androidHeader 0x80000002 ≠ Outcome.ret (-1) ∧
      getSectionName androidHeader 0x80000002 = S.name ∧ S.name ≠ none) ∧
    getSectionName androidHeader (androidHeader.VENDOR_SECTION_START + 0x20001)
      = some "demo.magic" := by
  obtain ⟨h1, h2⟩ := C1_declared_tag_lookup androidHeader
  have hlo : (sectionAt androidHeader 0 (by decide)).start ≤ 0x80000002 := by decide
  have hhi : 0x80000002 < (sectionAt androidHeader 0 (by decide)).end_ := by decide
  obtain ⟨e, he⟩ := h1 0x80000002 0 (sectionAt androidHeader 0 (by decide)) (by decide)
    (by decide) (sectionAt_eq_getElem androidHeader 0 (by decide)) hlo hhi
  exact ⟨⟨by decide, by decide⟩,
    ⟨_, e, sectionAt_eq_getElem androidHeader 0 (by decide), hlo, hhi, he⟩,
    (h2 (by decide)).2⟩

/-! ## Rejected tags -/

/-- C2: for every 32-bit tag `t` below `VENDOR_SECTION_START` every lookup returns not
found: `getSectionName t` and `getTagName t` are `NULL` and `getTagType t` is `-1`. -/
theorem C2_below_vendor_base (m : MetadataHeader) (t : Nat) (_ht : t < 2 ^ 32)
    (hlt : t < m.VENDOR_SECTION_START) :
    getSectionName m t = none ∧ getTagName m t = Outcome.ret none ∧
      getTagType m t = Outcome.ret (-1) := by
  have hsec : getSection m t = none := by
    unfold getSection
    simp only [hlt, if_true]
  have hent : getEntry m t = none := by
    unfold getEntry
    rw [hsec]
  refine ⟨?_, ?_, ?_⟩
  · unfold getSectionName
    rw [hsec]
  · unfold getTagName
    rw [hent]
  · unfold getTagType
    rw [hent]

/-- Instance of C2 at the Android header and the tag `B - 1 = 0x7fffffff`. -/
theorem C2_below_vendor_base_witness :
    (0x7fffffff < 2 ^ 32 ∧ 0x7fffffff < androidHeader.VENDOR_SECTION_START) ∧
    getSectionName androidHeader (androidHeader.VENDOR_SECTION_START - 1) = none ∧
    getTagName androidHeader (androidHeader.VENDOR_SECTION_START - 1) = Outcome.ret none ∧
    getTagType androidHeader (androidHeader.VENDOR_SECTION_START - 1) = Outcome.ret (-1) :=
  ⟨⟨by decide, by decide⟩,
    C2_below_vendor_base androidHeader 0x7fffffff (by decide) (by decide)⟩

/-- C3: for every 32-bit tag `t` at or above `VENDOR_SECTION_START` whose section index
`(t - VENDOR_SECTION_START) >> 16` is at least `DEMO_SECTION_COUNT`, every lookup returns
not found. -/
theorem C3_beyond_last_section (m : MetadataHeader) (t : Nat) (ht : t < 2 ^ 32)
    (hB : m.VENDOR_SECTION_START ≤ t)
    (hidx : DEMO_SECTION_COUNT ≤ (t - m.VENDOR_SECTION_START) >>> 16) :
    getSectionName m t = none ∧ getTagName m t = Outcome.ret none ∧
      getTagType m t = Outcome.ret (-1) := by
  have hsub : sub32 t m.VENDOR_SECTION_START = t - m.VENDOR_SECTION_START := by
    unfold sub32; omega
  have hsec : getSection m t = none := by
    unfold getSection
    simp only [hsub]
    rw [if_neg (by omega), dif_pos hidx]
  have hent : getEntry m t = none := by
    unfold getEntry
    rw [hsec]
  refine ⟨?_, ?_, ?_⟩
  · unfold getSectionName
    rw [hsec]
  · unfold getTagName
    rw [hent]
  · unfold getTagType
    rw [hent]

/-- Instance of C3 at the Android header and the tag `B + 0x30000`. -/
theorem C3_beyond_last_section_witness :
    (0x80030000 < 2 ^ 32 ∧ androidHeader.VENDOR_SECTION_START ≤ 0x80030000 ∧
      DEMO_SECTION_COUNT ≤ (0x80030000 - androidHeader.VENDOR_SECTION_START) >>> 16) ∧
    getSectionName androidHeader (androidHeader.VENDOR_SECTION_START + 0x30000) = none ∧
    getTagName androidHeader (androidHeader.VENDOR_SECTION_START + 0x30000)
      = Outcome.ret none ∧
    getTagType androidHeader (androidHeader.VENDOR_SECTION_START + 0x30000)
      = Outcome.ret (-1) :=
  ⟨⟨by decide, by decide, by decide⟩,
    C3_beyond_last_section androidHeader 0x80030000 (by decide) (by decide) (by decide)⟩

/-- C4: for every section `S` of the table, of index `i`, and every 32-bit tag `t` inside
the 65536-wide block of `S` with `t ≥ S.end`, the entry-level lookups return not found
(`getTagName t` is `NULL`, `getTagType t` is `-1`) while `getSectionName t` succeeds and
returns the name of `S`.  In the scenario of the spec, `getTagType (B + 0x20002)` is `-1`
while `getSectionName (B + 0x20002)` is `demo.magic`. -/
theorem C4_reserved_space_of_block (m : MetadataHeader) :
    (∀ (t i : Nat) (S : Section), t < 2 ^ 32 → (DemoSections m)[i]? = some S →
      m.VENDOR_SECTION_START + i * 65536 ≤ t →
      t < m.VENDOR_SECTION_START + (i + 1) * 65536 → S.end_ ≤ t →
      getTagName m t = Outcome.ret none ∧ getTagType m t = Outcome.ret (-1) ∧
        getSectionName m t = S.name ∧ S.name ≠ none) ∧
    (m.VENDOR_SECTION_START + 0x20002 < 2 ^ 32 →
      getTagType m (m.VENDOR_SECTION_START + 0x20002) = Outcome.ret (-1) ∧
      getSectionName m (m.VENDOR_SECTION_START + 0x20002) = some "demo.magic") := by
  have main : ∀ (t i : Nat) (S : Section), t < 2 ^ 32 → (DemoSections m)[i]? = some S →
      m.VENDOR_SECTION_START + i * 65536 ≤ t →
      t < m.VENDOR_SECTION_START + (i + 1) * 65536 → S.end_ ≤ t →
      getTagName m t = Outcome.ret none ∧ getTagType m t = Outcome.ret (-1) ∧
        getSectionName m t = S.name ∧ S.name ≠ none := by
    intro t i S ht hS hlo hhi hend
    obtain ⟨hi, rfl⟩ := DemoSections_getElem m i S hS
    have hsec := getSection_block m t i ht hi hlo hhi
    have hent : getEntry m t = none := by
      unfold getEntry
      rw [hsec]
      simp only [ge_iff_le, hend, if_true]
    refine ⟨?_, ?_, ?_, ?_⟩
    · unfold getTagName
      rw [hent]
    · unfold getTagType
      rw [hent]
    · unfold getSectionName
      rw [hsec]
    · rw [sectionAt_name]; exact Option.some_ne_none _
  refine ⟨main, fun hfit => ?_⟩
  obtain ⟨-, hty, hname, -⟩ := main (m.VENDOR_SECTION_START + 0x20002) 2 _ (by omega)
    (sectionAt_eq_getElem m 2 (by decide)) (by omega) (by omega)
    (by simp only [sectionAt_two, Section.init, DEMO_MAGIC_START, DEMO_MAGIC,
      DEMO_MAGIC_END]; omega)
  exact ⟨hty, by rw [hname]; rfl⟩

/-- Instance of C4 at the Android header: the tag `0x80020002` is in the block of section 2
and past its end. -/
theorem C4_reserved_space_of_block_witness :
    (∃ S : Section, (DemoSections androidHeader)[2]? = some S ∧
      androidHeader.VENDOR_SECTION_START + 2 * 65536 ≤ 0x80020002 ∧
      0x80020002 < androidHeader.VENDOR_SECTION_START + (2 + 1) * 65536 ∧
      S.end_ ≤ 0x80020002 ∧
      getTagName androidHeader 0x80020002 = Outcome.ret none ∧
      getTagType androidHeader 0x80020002 = Outcome.ret (-1) ∧
      getSectionName androidHeader 0x80020002 = S.name ∧ S.name ≠ none) ∧
    getTagType androidHeader (androidHeader.VENDOR_SECTION_START + 0x20002)
      = Outcome.ret (-1) ∧
    getSectionName androidHeader (androidHeader.VENDOR_SECTION_START + 0x20002)
      = some "demo.magic" := by
  obtain ⟨h1, h2⟩ := C4_reserved_space_of_block androidHeader
  have hend : (sectionAt androidHeader 2 (by decide)).end_ ≤ 0x80020002 := by decide
  exact ⟨⟨_, sectionAt_eq_getElem androidHeader 2 (by decide), by decide, by decide, hend,
    h1 0x80020002 2 _ (by decide) (sectionAt_eq_getElem androidHeader 2 (by decide))
      (by decide) (by decide) hend⟩, h2 (by decide)⟩

/-! ## Counting and enumeration -/

/-- The inner loop of `getAllTags` terminates for every `uint32_t` bound: with more fuel
than `stop - tag` it stores the values `tag, tag + 1, ..., stop - 1` (nothing when
`stop ≤ tag`), and `tag++` never wraps. -/
theorem tagLoop_eq (fuel stop : Nat) (hstop : stop < 2 ^ 32) :
    ∀ (tag : Nat) (out : List Nat), stop - tag < fuel →
      tagLoop fuel stop tag out = some (out ++ List.range' tag (stop - tag)) := by
  induction fuel with
  | zero => intro tag out h; omega
  | succ fuel ih =>
    intro tag out h
    unfold tagLoop
    by_cases hlt : tag < stop
    · rw [if_pos hlt]
      have hwrap : (tag + 1) % 2 ^ 32 = tag + 1 := by omega
      rw [hwrap, ih (tag + 1) (out ++ [tag]) (by omega)]
      have hn : stop - tag = (stop - (tag + 1)) + 1 := by omega
      rw [hn, List.range'_succ, List.append_assoc]
      simp
    · rw [if_neg hlt]
      have hn : stop - tag = 0 := by omega
      rw [hn]
      simp

/-- The stored end of every section of the table is a `uint32_t`, and the wrapped
difference `end - start` is the length of the entry array. -/
theorem sectionAt_size (m : MetadataHeader) (i : Nat) (hi : i < DEMO_SECTION_COUNT) :
    (sectionAt m i hi).end_ < 2 ^ 32 ∧
    sub32 (sectionAt m i hi).end_ (sectionAt m i hi).start
      = (sectionAt m i hi).tags.length := by
  obtain ⟨hs, he, hl⟩ := sectionAt_fields m i hi
  refine ⟨by rw [he]; omega, ?_⟩
  rw [hs, he]
  unfold sub32
  omega

/-- One step of the counting loop on small values. -/
theorem count_step (c n : Nat) (h : c + n < 2 ^ 31) :
    toInt32 ((ofInt32 (c : Int) + n) % 2 ^ 32) = ((c + n : Nat) : Int) := by
  have h1 : (ofInt32 (c : Int) + n) % 2 ^ 32 = c + n := by unfold ofInt32; omega
  rw [h1]
  unfold toInt32
  have h2 : (c + n) % 2 ^ 32 = c + n := by omega
  rw [h2, if_pos h]

/-- The lengths of the three entry arrays. -/
theorem sectionAt_length (m : MetadataHeader) :
    (sectionAt m 0 (by decide)).tags.length = 4 ∧
    (sectionAt m 1 (by decide)).tags.length = 2 ∧
    (sectionAt m 2 (by decide)).tags.length = 2 := by
  refine ⟨?_, ?_, ?_⟩
  · rw [sectionAt_zero]; simp [Section.init, DemoWizardry_eq]
  · rw [sectionAt_one]; simp [Section.init, DemoSorcery_eq]
  · rw [sectionAt_two]; simp [Section.init, DemoMagic_eq]

/-- The constructor counts 8 tags. -/
theorem init_mTagCount (m : MetadataHeader) : (VendorTags.init m).mTagCount = 8 := by
  obtain ⟨l0, l1, l2⟩ := sectionAt_length m
  have s0 := (sectionAt_size m 0 (by decide)).2
  have s1 := (sectionAt_size m 1 (by decide)).2
  have s2 := (sectionAt_size m 2 (by decide)).2
  rw [l0] at s0
  rw [l1] at s1
  rw [l2] at s2
  unfold VendorTags.init
  simp only
  rw [countLoop, dif_pos (by decide), s0]
  have c0 := count_step 0 4 (by decide)
  simp only [Nat.cast_zero, Nat.zero_add] at c0
  rw [c0]
  rw [countLoop, dif_pos (by decide), s1, count_step 4 2 (by decide)]
  rw [countLoop, dif_pos (by decide), s2, count_step (4 + 2) 2 (by decide)]
  rw [countLoop, dif_neg (by decide)]
  rfl

/-- The enumeration loop, run from the first section with more fuel than the largest
section has tags, stores the ranges of the three sections one after the other. -/
theorem allTagsLoop_eq (m : MetadataHeader) (fuel : Nat) (hfuel : 5 ≤ fuel) :
    allTagsLoop m fuel 0 [] =
      some ((DemoSections m).flatMap fun s => List.range' s.start (s.end_ - s.start)) := by
  have hsmall : ∀ (i : Nat) (hi : i < DEMO_SECTION_COUNT),
      (sectionAt m i hi).end_ - (sectionAt m i hi).start < fuel := by
    intro i hi
    obtain ⟨hs, he, hl⟩ := sectionAt_fields m i hi
    rw [hs, he]
    omega
  have hrun : ∀ (i : Nat) (hi : i < DEMO_SECTION_COUNT) (out : List Nat),
      tagLoop fuel (sectionAt m i hi).end_ (sectionAt m i hi).start out =
        some (out ++ List.range' (sectionAt m i hi).start
          ((sectionAt m i hi).end_ - (sectionAt m i hi).start)) :=
    fun i hi out =>
      tagLoop_eq fuel _ (sectionAt_size m i hi).1 _ out (hsmall i hi)
  rw [allTagsLoop, dif_pos (by decide), hrun 0 (by decide)]
  simp only
  rw [allTagsLoop, dif_pos (by decide), hrun 1 (by decide)]
  simp only
  rw [allTagsLoop, dif_pos (by decide), hrun 2 (by decide)]
  simp only
  rw [allTagsLoop, dif_neg (by decide)]
  rw [DemoSections_eq]
  simp only [List.flatMap_cons, List.flatMap_nil, List.nil_append, List.append_nil,
    List.append_assoc, sectionAt_zero, sectionAt_one, sectionAt_two]

/-- With the three blocks inside the 32-bit tag space, the ranges of the sections are the
eight tags of the spec's scenario. -/
theorem ranges_eq (m : MetadataHeader) (hfit : m.VENDOR_SECTION_START + 3 * 65536 ≤ 2 ^ 32) :
    ((DemoSections m).flatMap fun s => List.range' s.start (s.end_ - s.start)) =
      [m.VENDOR_SECTION_START, m.VENDOR_SECTION_START + 1, m.VENDOR_SECTION_START + 2,
        m.VENDOR_SECTION_START + 3, m.VENDOR_SECTION_START + 0x10000,
        m.VENDOR_SECTION_START + 0x10001, m.VENDOR_SECTION_START + 0x20000,
        m.VENDOR_SECTION_START + 0x20001] := by
  have e0 : (m.VENDOR_SECTION_START + 0 * 65536) % 2 ^ 32 = m.VENDOR_SECTION_START := by omega
  have e1 : (m.VENDOR_SECTION_START + 0 * 65536 + 4) % 2 ^ 32
      = m.VENDOR_SECTION_START + 4 := by omega
  have e2 : (m.VENDOR_SECTION_START + 1 * 65536) % 2 ^ 32
      = m.VENDOR_SECTION_START + 65536 := by omega
  have e3 : (m.VENDOR_SECTION_START + 1 * 65536 + 2) % 2 ^ 32
      = m.VENDOR_SECTION_START + 65536 + 2 := by omega
  have e4 : (m.VENDOR_SECTION_START + 2 * 65536) % 2 ^ 32
      = m.VENDOR_SECTION_START + 131072 := by omega
  have e5 : (m.VENDOR_SECTION_START + 2 * 65536 + 2) % 2 ^ 32
      = m.VENDOR_SECTION_START + 131072 + 2 := by omega
  rw [DemoSections_eq]
  simp only [List.flatMap_cons, List.flatMap_nil, List.append_nil, Section.init,
    DEMO_WIZARDRY_START, DEMO_WIZARDRY_END, DEMO_SORCERY_START, DEMO_SORCERY_END,
    DEMO_MAGIC_START, DEMO_MAGIC_END, DEMO_WIZARDRY, DEMO_SORCERY, DEMO_MAGIC,
    e0, e1, e2, e3, e4, e5, Nat.add_sub_cancel_left]
  rfl

/-- A call of `getAllTags` with a destination other than `NULL` and enough fuel stores the
ranges of the sections, emits no diagnostic and leaves the registry as it was. -/
theorem getAllTags_eq (m : MetadataHeader) (fuel : Nat) (self : VendorTags) (a : Nat)
    (hfuel : 5 ≤ fuel) :
    self.getAllTags m fuel (some a) =
      some ⟨self, [],
        (DemoSections m).flatMap fun s => List.range' s.start (s.end_ - s.start)⟩ := by
  unfold VendorTags.getAllTags
  simp only [allTagsLoop_eq m fuel hfuel]

/-- With the three blocks inside the 32-bit tag space, the Nat difference `end - start`
of every section of the table is the number of its entries, and the sum is 8. -/
theorem sum_sizes (m : MetadataHeader) (hfit : m.VENDOR_SECTION_START + 3 * 65536 ≤ 2 ^ 32) :
    ((DemoSections m).map fun s => s.end_ - s.start).sum = 8 := by
  have e0 : (m.VENDOR_SECTION_START + 0 * 65536 + 4) % 2 ^ 32
      - (m.VENDOR_SECTION_START + 0 * 65536) % 2 ^ 32 = 4 := by omega
  have e1 : (m.VENDOR_SECTION_START + 1 * 65536 + 2) % 2 ^ 32
      - (m.VENDOR_SECTION_START + 1 * 65536) % 2 ^ 32 = 2 := by omega
  have e2 : (m.VENDOR_SECTION_START + 2 * 65536 + 2) % 2 ^ 32
      - (m.VENDOR_SECTION_START + 2 * 65536) % 2 ^ 32 = 2 := by omega
  rw [DemoSections_eq]
  show _ = 4 + (2 + (2 + 0))
  simp only [List.map_cons, List.map_nil, List.sum_cons, List.sum_nil, Section.init,
    DEMO_WIZARDRY_START, DEMO_WIZARDRY_END, DEMO_SORCERY_START, DEMO_SORCERY_END,
    DEMO_MAGIC_START, DEMO_MAGIC_END, DEMO_WIZARDRY, DEMO_SORCERY, DEMO_MAGIC, e0, e1, e2]

/-- C5: after construction `getTagCount()` equals the sum of `end - start` over the
sections of `DemoSections`, and that value is the number of elements one call of
`getAllTags` with a destination other than `NULL` writes. -/
theorem C5_tag_count_matches_enumeration (m : MetadataHeader) (fuel a : Nat)
    (hfit : m.VENDOR_SECTION_START + 3 * 65536 ≤ 2 ^ 32) (hfuel : 5 ≤ fuel) :
    (VendorTags.init m).getTagCount
      = ((((DemoSections m).map fun s => s.end_ - s.start).sum : Nat) : Int) ∧
    ∃ r : AllTags, (VendorTags.init m).getAllTags m fuel (some a) = some r ∧
      ((r.written.length : Nat) : Int) = (VendorTags.init m).getTagCount := by
  refine ⟨?_, _, getAllTags_eq m fuel _ a hfuel, ?_⟩
  · rw [sum_sizes m hfit]
    exact init_mTagCount m
  · simp only [ranges_eq m hfit, VendorTags.getTagCount, init_mTagCount]
    rfl

/-- Instance of C5 at the Android header, with fuel 5 and destination address 0. -/
theorem C5_tag_count_matches_enumeration_witness :
    (androidHeader.VENDOR_SECTION_START + 3 * 65536 ≤ 2 ^ 32 ∧ 5 ≤ 5) ∧
    (VendorTags.init androidHeader).getTagCount
      = ((((DemoSections androidHeader).map fun s => s.end_ - s.start).sum : Nat) : Int) ∧
    ∃ r : AllTags,
      (VendorTags.init androidHeader).getAllTags androidHeader 5 (some 0) = some r ∧
      ((r.written.length : Nat) : Int) = (VendorTags.init androidHeader).getTagCount :=
  ⟨⟨by decide, by decide⟩,
    C5_tag_count_matches_enumeration androidHeader 5 0 (by decide) (by decide)⟩

/-- C6: the sequence `getAllTags` writes to a destination other than `NULL` is the
concatenation, in section order, of the ascending ranges `start, ..., end - 1` of the
sections; it is in non-decreasing order, holds no value twice, and every tag of every
declared range `[start, end)` occurs in it exactly once. -/
theorem C6_enumeration_sorted_complete (m : MetadataHeader) (fuel : Nat) (self : VendorTags)
    (a : Nat) (hfit : m.VENDOR_SECTION_START + 3 * 65536 ≤ 2 ^ 32) (hfuel : 5 ≤ fuel) :
    ∃ r : AllTags, self.getAllTags m fuel (some a) = some r ∧
      r.written
        = ((DemoSections m).flatMap fun s => List.range' s.start (s.end_ - s.start)) ∧
      r.written.Sorted (fun x y => x ≤ y) ∧ r.written.Nodup ∧
      ∀ (S : Section) (t : Nat), S ∈ DemoSections m → S.start ≤ t → t < S.end_ →
        r.written.count t = 1 := by
  have hstrict : List.Pairwise (fun x y : Nat => x < y)
      ((DemoSections m).flatMap fun s => List.range' s.start (s.end_ - s.start)) := by
    rw [ranges_eq m hfit]
    simp only [List.pairwise_cons, List.mem_cons, List.mem_singleton, List.not_mem_nil,
      forall_eq_or_imp, forall_eq, List.Pairwise.nil, and_true, IsEmpty.forall_iff,
      implies_true]
    omega
  have hnodup : List.Nodup
      ((DemoSections m).flatMap fun s => List.range' s.start (s.end_ - s.start)) :=
    hstrict.imp (fun h => Nat.ne_of_lt h)
  refine ⟨_, getAllTags_eq m fuel self a hfuel, rfl, hstrict.imp (fun h => Nat.le_of_lt h),
    hnodup, ?_⟩
  intro S t hS hlo hhi
  apply List.count_eq_one_of_mem hnodup
  rw [List.mem_flatMap]
  refine ⟨S, hS, ?_⟩
  rw [List.mem_range'_1]
  omega

/-- Instance of C6 at the Android header, with fuel 5, a fresh registry and destination
address 0. -/
theorem C6_enumeration_sorted_complete_witness :
    (androidHeader.VENDOR_SECTION_START + 3 * 65536 ≤ 2 ^ 32 ∧ 5 ≤ 5) ∧
    ∃ r : AllTags,
      (VendorTags.init androidHeader).getAllTags androidHeader 5 (some 0) = some r ∧
      r.written = ((DemoSections androidHeader).flatMap
        fun s => List.range' s.start (s.end_ - s.start)) ∧
      r.written.Sorted (fun x y => x ≤ y) ∧ r.written.Nodup ∧
      ∀ (S : Section) (t : Nat), S ∈ DemoSections androidHeader → S.start ≤ t →
        t < S.end_ → r.written.count t = 1 :=
  ⟨⟨by decide, by decide⟩,
    C6_enumeration_sorted_complete androidHeader 5 (VendorTags.init androidHeader) 0
      (by decide) (by decide)⟩

/-- C7: for the declared table (three sections with 4, 2 and 2 entries, section `i`
starting at `B + i * 0x10000`, `B` the vendor base), `getTagCount()` returns 8 and
`getAllTags` writes exactly `[B, B+1, B+2, B+3, B+0x10000, B+0x10001, B+0x20000,
B+0x20001]`. -/
theorem C7_scenario_count_and_tags (m : MetadataHeader) (fuel a : Nat)
    (hfit : m.VENDOR_SECTION_START + 3 * 65536 ≤ 2 ^ 32) (hfuel : 5 ≤ fuel) :
    ((DemoSections m).map fun s => (s.start, s.tags.length))
      = [(m.VENDOR_SECTION_START, 4), (m.VENDOR_SECTION_START + 0x10000, 2),
          (m.VENDOR_SECTION_START + 2 * 0x10000, 2)] ∧
    (VendorTags.init m).getTagCount = 8 ∧
    ∃ r : AllTags, (VendorTags.init m).getAllTags m fuel (some a) = some r ∧
      r.written =
        [m.VENDOR_SECTION_START, m.VENDOR_SECTION_START + 1, m.VENDOR_SECTION_START + 2,
          m.VENDOR_SECTION_START + 3, m.VENDOR_SECTION_START + 0x10000,
          m.VENDOR_SECTION_START + 0x10001, m.VENDOR_SECTION_START + 0x20000,
          m.VENDOR_SECTION_START + 0x20001] := by
  refine ⟨?_, init_mTagCount m, _, getAllTags_eq m fuel _ a hfuel, ranges_eq m hfit⟩
  have e0 : (m.VENDOR_SECTION_START + 0 * 65536) % 2 ^ 32 = m.VENDOR_SECTION_START := by omega
  have e2 : (m.VENDOR_SECTION_START + 1 * 65536) % 2 ^ 32
      = m.VENDOR_SECTION_START + 65536 := by omega
  have e4 : (m.VENDOR_SECTION_START + 2 * 65536) % 2 ^ 32
      = m.VENDOR_SECTION_START + 2 * 65536 := by omega
  rw [DemoSections_eq]
  simp only [List.map_cons, List.map_nil, Section.init, DemoWizardry_eq, DemoSorcery_eq,
    DemoMagic_eq, DEMO_WIZARDRY_START, DEMO_SORCERY_START, DEMO_MAGIC_START, DEMO_WIZARDRY,
    DEMO_SORCERY, DEMO_MAGIC, e0, e2, e4, List.length_cons, List.length_nil]

/-- Instance of C7 at the Android header: the count is 8 and the tags are
`0x80000000 .. 0x80000003`, `0x80010000`, `0x80010001`, `0x80020000`, `0x80020001`. -/
theorem C7_scenario_count_and_tags_witness :
    (androidHeader.VENDOR_SECTION_START + 3 * 65536 ≤ 2 ^ 32 ∧ 5 ≤ 5) ∧
    (VendorTags.init androidHeader).getTagCount = 8 ∧
    ∃ r : AllTags,
      (VendorTags.init androidHeader).getAllTags androidHeader 5 (some 0) = some r ∧
      r.written = [0x80000000, 0x80000001, 0x80000002, 0x80000003, 0x80010000,
        0x80010001, 0x80020000, 0x80020001] :=
  ⟨⟨by decide, by decide⟩,
    (C7_scenario_count_and_tags androidHeader 5 0 (by decide) (by decide)).2⟩

/-- C8: called with the destination `NULL`, `getAllTags` rejects the call (its only
trace is the diagnostic of the `NULL` destination) and writes nothing: no cell of any
caller buffer changes and the registry, `mTagCount` included, is as before. -/
theorem C8_null_destination_no_writes (m : MetadataHeader) (fuel : Nat)
    (self : VendorTags) :
    ∃ r : AllTags, self.getAllTags m fuel none = some r ∧
      r.log = ["getAllTags: NULL tag_array"] ∧ r.written = [] ∧
      (∀ buffer : List Nat, storeAll buffer r.written = buffer) ∧
      r.self = self ∧ r.self.mTagCount = self.mTagCount :=
  ⟨⟨self, ["getAllTags: NULL tag_array"], []⟩, rfl, rfl, rfl, fun _ => rfl, rfl, rfl⟩

/-! ## Invariants of the static table -/

/-- The designated indices of the three initializer lists. -/
theorem inits_eq (m : MetadataHeader) :
    DemoWizardryInit m =
      [(0, Entry.init "dimensionSize" m.TYPE_INT32), (1, Entry.init "dimensions" m.TYPE_INT32),
        (2, Entry.init "familiar" m.TYPE_BYTE), (3, Entry.init "fire" m.TYPE_RATIONAL)] ∧
    DemoSorceryInit m =
      [(0, Entry.init "difficulty" m.TYPE_INT64), (1, Entry.init "light" m.TYPE_BYTE)] ∧
    DemoMagicInit m =
      [(0, Entry.init "cardTrick" m.TYPE_DOUBLE), (1, Entry.init "levitation" m.TYPE_FLOAT)] := by
  refine ⟨?_, ?_, ?_⟩
  · simp only [DemoWizardryInit, DEMO_WIZARDRY_DIMENSION_SIZE, DEMO_WIZARDRY_DIMENSIONS,
      DEMO_WIZARDRY_FAMILIAR, DEMO_WIZARDRY_FIRE, Nat.add_sub_cancel_left, Nat.sub_self]
  · simp only [DemoSorceryInit, DEMO_SORCERY_DIFFICULTY, DEMO_SORCERY_LIGHT,
      Nat.add_sub_cancel_left, Nat.sub_self]
  · simp only [DemoMagicInit, DEMO_MAGIC_CARD_TRICK, DEMO_MAGIC_LEVITATION,
      Nat.add_sub_cancel_left, Nat.sub_self]

/-- C9: in the static table every slot of every section's entry array is a declared
entry: for every section `S` and every index `k < S.end - S.start`, the slot `S.tags[k]`
is given by exactly one designated initializer, the one whose index `tag - start` is `k`,
and has a name other than `NULL`; no zero-initialized entry occupies a slot of a declared
range. -/
theorem C9_every_slot_declared (m : MetadataHeader) (i : Nat) (S : Section)
    (hS : (DemoSections m)[i]? = some S) :
    ∃ inits : List (Nat × Entry), (DemoInits m)[i]? = some inits ∧
      S.tags = designated S.tags.length Entry.zero inits ∧
      ∀ k : Nat, k < S.end_ - S.start → SlotDeclared inits S.tags k := by
  obtain ⟨hi, rfl⟩ := DemoSections_getElem m i S hS
  obtain ⟨hs, he, -⟩ := sectionAt_fields m i hi
  obtain ⟨l0, l1, l2⟩ := sectionAt_length m
  obtain ⟨i0, i1, i2⟩ := inits_eq m
  have hk : ∀ k : Nat, k < (sectionAt m i hi).end_ - (sectionAt m i hi).start →
      k < (sectionAt m i hi).tags.length := by
    intro k h
    rw [hs, he] at h
    omega
  have hne : ∀ (n : String) (ty : Nat), some (Entry.init n ty) ≠ some Entry.zero := by
    intro n ty h
    have h1 := congrArg Entry.name (Option.some.inj h)
    exact Option.noConfusion h1
  have h3 : i = 0 ∨ i = 1 ∨ i = 2 := by unfold DEMO_SECTION_COUNT at hi; omega
  rcases h3 with rfl | rfl | rfl
  · refine ⟨DemoWizardryInit m, rfl, ?_, ?_⟩
    · rw [l0, i0]
      simp only [sectionAt_zero, Section.init, DemoWizardry_eq]
      rfl
    · intro k h
      have hk4 := hk k h
      rw [l0] at hk4
      rw [i0]
      simp only [sectionAt_zero, Section.init, DemoWizardry_eq]
      unfold SlotDeclared
      interval_cases k
      · exact ⟨_, rfl, rfl, rfl, Option.some_ne_none _, hne _ _⟩
      · exact ⟨_, rfl, rfl, rfl, Option.some_ne_none _, hne _ _⟩
      · exact ⟨_, rfl, rfl, rfl, Option.some_ne_none _, hne _ _⟩
      · exact ⟨_, rfl, rfl, rfl, Option.some_ne_none _, hne _ _⟩
  · refine ⟨DemoSorceryInit m, rfl, ?_, ?_⟩
    · rw [l1, i1]
      simp only [sectionAt_one, Section.init, DemoSorcery_eq]
      rfl
    · intro k h
      have hk4 := hk k h
      rw [l1] at hk4
      rw [i1]
      simp only [sectionAt_one, Section.init, DemoSorcery_eq]
      unfold SlotDeclared
      interval_cases k
      · exact ⟨_, rfl, rfl, rfl, Option.some_ne_none _, hne _ _⟩
      · exact ⟨_, rfl, rfl, rfl, Option.some_ne_none _, hne _ _⟩
  · refine ⟨DemoMagicInit m, rfl, ?_, ?_⟩
    · rw [l2, i2]
      simp only [sectionAt_two, Section.init, DemoMagic_eq]
      rfl
    · intro k h
      have hk4 := hk k h
      rw [l2] at hk4
      rw [i2]
      simp only [sectionAt_two, Section.init, DemoMagic_eq]
      unfold SlotDeclared
      interval_cases k
      · exact ⟨_, rfl, rfl, rfl, Option.some_ne_none _, hne _ _⟩
      · exact ⟨_, rfl, rfl, rfl, Option.some_ne_none _, hne _ _⟩

/-- Instance of C9 at the Android header and section 0, `demo.wizardry`. -/
theorem C9_every_slot_declared_witness :
    ∃ S : Section, (DemoSections androidHeader)[0]? = some S ∧
      ∃ inits : List (Nat × Entry), (DemoInits androidHeader)[0]? = some inits ∧
        S.tags = designated S.tags.length Entry.zero inits ∧
        ∀ k : Nat, k < S.end_ - S.start → SlotDeclared inits S.tags k :=
  ⟨sectionAt androidHeader 0 (by decide), sectionAt_eq_getElem androidHeader 0 (by decide),
    C9_every_slot_declared androidHeader 0 _
      (sectionAt_eq_getElem androidHeader 0 (by decide))⟩

/-- C10: the section table has the layout the decoder relies on.  Every index below
`DEMO_SECTION_COUNT` holds a section; section `i` starts at
`VENDOR_SECTION_START + i * 65536` and `start ≤ end ≤ start + 65536`; the ranges increase
with `i` and no two of them overlap; and `(t - VENDOR_SECTION_START) >> 16 = i` for every
`t` in the range `[start, end)` of section `i`. -/
theorem C10_layout_invariant (m : MetadataHeader)
    (hfit : m.VENDOR_SECTION_START + 3 * 65536 ≤ 2 ^ 32) :
    (∀ i : Nat, i < DEMO_SECTION_COUNT → ∃ S : Section, (DemoSections m)[i]? = some S) ∧
    ∀ (i : Nat) (S : Section), (DemoSections m)[i]? = some S →
      i < DEMO_SECTION_COUNT ∧
      S.start = m.VENDOR_SECTION_START + i * 65536 ∧
      S.start ≤ S.end_ ∧ S.end_ ≤ S.start + 65536 ∧
      (∀ (j : Nat) (T : Section), (DemoSections m)[j]? = some T → i < j →
        S.start < T.start ∧ S.end_ ≤ T.start) ∧
      (∀ (j : Nat) (T : Section), (DemoSections m)[j]? = some T → i ≠ j →
        ∀ t : Nat, ¬ ((S.start ≤ t ∧ t < S.end_) ∧ (T.start ≤ t ∧ t < T.end_))) ∧
      (∀ t : Nat, S.start ≤ t → t < S.end_ →
        (t - m.VENDOR_SECTION_START) >>> 16 = i ∧
        sub32 t m.VENDOR_SECTION_START >>> 16 = i) := by
  have hfield : ∀ (i : Nat) (hi : i < DEMO_SECTION_COUNT),
      (sectionAt m i hi).start = m.VENDOR_SECTION_START + i * 65536 ∧
      (sectionAt m i hi).start ≤ (sectionAt m i hi).end_ ∧
      (sectionAt m i hi).end_ ≤ (sectionAt m i hi).start + 4 := by
    intro i hi
    obtain ⟨hs, he, hl⟩ := sectionAt_fields m i hi
    have hi3 : i < 3 := hi
    rw [hs, he]
    omega
  refine ⟨fun i hi => ⟨_, sectionAt_eq_getElem m i hi⟩, ?_⟩
  intro i S hS
  obtain ⟨hi, rfl⟩ := DemoSections_getElem m i S hS
  obtain ⟨hs, hle, hend⟩ := hfield i hi
  have hi3 : i < 3 := hi
  refine ⟨hi, hs, hle, by omega, ?_, ?_, ?_⟩
  · intro j T hT hij
    obtain ⟨hj, rfl⟩ := DemoSections_getElem m j T hT
    obtain ⟨hs2, -, -⟩ := hfield j hj
    omega
  · intro j T hT hij t
    obtain ⟨hj, rfl⟩ := DemoSections_getElem m j T hT
    obtain ⟨hs2, -, hend2⟩ := hfield j hj
    omega
  · intro t hlo hhi
    have hlt : t < 2 ^ 32 := by omega
    have hsub : sub32 t m.VENDOR_SECTION_START = t - m.VENDOR_SECTION_START := by
      unfold sub32; omega
    rw [hsub, Nat.shiftRight_eq_div_pow]
    omega

/-- Instance of C10 at the Android header: section 1 starts at `0x80010000`, and the tag
`0x80010001` of its range has section index 1. -/
theorem C10_layout_invariant_witness :
    androidHeader.VENDOR_SECTION_START + 3 * 65536 ≤ 2 ^ 32 ∧
    ∃ S : Section, (DemoSections androidHeader)[1]? = some S ∧
      S.start = 0x80010000 ∧ S.start ≤ S.end_ ∧ S.end_ ≤ S.start + 65536 ∧
      (0x80010001 - androidHeader.VENDOR_SECTION_START) >>> 16 = 1 := by
  obtain ⟨-, h⟩ := C10_layout_invariant androidHeader (by decide)
  obtain ⟨-, hs, hle, hend, -, -, ht⟩ :=
    h 1 _ (sectionAt_eq_getElem androidHeader 1 (by decide))
  exact ⟨by decide, _, sectionAt_eq_getElem androidHeader 1 (by decide), hs, hle, hend,
    (ht 0x80010001 (by decide) (by decide)).1⟩

/-! ## Decoding, inverted -/

/-- A tag that `getSection` accepts lies in the 65536-block of the section returned. -/
theorem getSection_some (m : MetadataHeader) (t : Nat) (S : Section) (ht : t < 2 ^ 32)
    (h : getSection m t = some S) :
    ∃ (i : Nat) (hi : i < DEMO_SECTION_COUNT), S = sectionAt m i hi ∧
      m.VENDOR_SECTION_START + i * 65536 ≤ t ∧
      t < m.VENDOR_SECTION_START + (i + 1) * 65536 := by
  unfold getSection at h
  by_cases hlt : t < m.VENDOR_SECTION_START
  · simp only [hlt, if_true] at h
    exact Option.noConfusion h
  · by_cases hge : sub32 t m.VENDOR_SECTION_START >>> 16 ≥ DEMO_SECTION_COUNT
    · simp only [hlt, if_false, hge, dite_true] at h
      exact Option.noConfusion h
    · simp only [hlt, if_false, hge, dite_false] at h
      refine ⟨_, Nat.lt_of_not_ge hge, (Option.some.inj h).symm, ?_, ?_⟩
      · unfold sub32; rw [Nat.shiftRight_eq_div_pow]; omega
      · unfold sub32; rw [Nat.shiftRight_eq_div_pow]; omega

/-- A tag for which `getEntry` returns a pointer: the section it decodes to contains it,
the subtraction `tag - start` does not wrap, and the pointer designates slot
`tag - start`, which lies inside the entry array. -/
theorem getEntry_some (m : MetadataHeader) (t : Nat) (p : EntryPtr) (ht : t < 2 ^ 32)
    (h : getEntry m t = some p) :
    ∃ (i : Nat) (hi : i < DEMO_SECTION_COUNT),
      getSection m t = some (sectionAt m i hi) ∧
      (sectionAt m i hi).start ≤ t ∧ t < (sectionAt m i hi).end_ ∧
      p = ⟨(sectionAt m i hi).tags, ((t - (sectionAt m i hi).start : Nat) : Int)⟩ ∧
      t - (sectionAt m i hi).start < (sectionAt m i hi).tags.length ∧
      (sectionAt m i hi).end_ - (sectionAt m i hi).start = (sectionAt m i hi).tags.length := by
  cases hsec : getSection m t with
  | none =>
    unfold getEntry at h
    rw [hsec] at h
    exact Option.noConfusion h
  | some S =>
    obtain ⟨i, hi, rfl, hlo, hhi⟩ := getSection_some m t S ht hsec
    have hend : t < (sectionAt m i hi).end_ := by
      by_contra hc
      unfold getEntry at h
      rw [hsec] at h
      simp only [ge_iff_le, Nat.le_of_not_lt hc, if_true] at h
      exact Option.noConfusion h
    obtain ⟨hs, he, hl⟩ := sectionAt_fields m i hi
    have hstart : (sectionAt m i hi).start ≤ t := by rw [hs]; omega
    have hB : m.VENDOR_SECTION_START ≤ t := by omega
    obtain ⟨-, hent, hlen⟩ := getEntry_declared m t i _ ht hB
      (sectionAt_eq_getElem m i hi) hstart hend
    rw [hent] at h
    refine ⟨i, hi, rfl, hstart, hend, (Option.some.inj h).symm, hlen, ?_⟩
    rw [he] at hend
    rw [hs, he]
    omega

/-- The two entry-level lookups of a tag that `getEntry` accepts: both read the same
slot, which exists. -/
theorem lookups_of_getEntry (m : MetadataHeader) (t : Nat) (tags : List Entry) (k : Nat)
    (hent : getEntry m t = some ⟨tags, (k : Int)⟩) (hk : k < tags.length) :
    getTagName m t = Outcome.ret (tags[k]).name ∧
      getTagType m t = Outcome.ret ((tags[k]).type : Int) := by
  have hget : tags[k]? = some tags[k] := List.getElem?_eq_getElem hk
  constructor
  · unfold getTagName
    rw [hent]
    simp only [EntryPtr.read_natCast, hget]
  · unfold getTagType
    rw [hent]
    simp only [EntryPtr.read_natCast, hget]

/-! ## Names and validity -/

/-- The names of the entries of a section of the table are pairwise different. -/
theorem sectionAt_names_nodup (m : MetadataHeader) (i : Nat) (hi : i < DEMO_SECTION_COUNT) :
    ((sectionAt m i hi).tags.map Entry.name).Nodup := by
  have h3 : i = 0 ∨ i = 1 ∨ i = 2 := by unfold DEMO_SECTION_COUNT at hi; omega
  rcases h3 with rfl | rfl | rfl
  · simp only [sectionAt_zero, Section.init, DemoWizardry_eq, Entry.init, List.map_cons,
      List.map_nil]
    decide
  · simp only [sectionAt_one, Section.init, DemoSorcery_eq, Entry.init, List.map_cons,
      List.map_nil]
    decide
  · simp only [sectionAt_two, Section.init, DemoMagic_eq, Entry.init, List.map_cons,
      List.map_nil]
    decide

/-- Two slots of a section of the table with the same name are the same slot. -/
theorem sectionAt_name_inj (m : MetadataHeader) (i : Nat) (hi : i < DEMO_SECTION_COUNT)
    (j k : Nat) (hj : j < (sectionAt m i hi).tags.length)
    (hk : k < (sectionAt m i hi).tags.length)
    (h : ((sectionAt m i hi).tags[j]).name = ((sectionAt m i hi).tags[k]).name) : j = k := by
  have hnd := sectionAt_names_nodup m i hi
  have hj2 : j < ((sectionAt m i hi).tags.map Entry.name).length := by
    rw [List.length_map]; exact hj
  have hk2 : k < ((sectionAt m i hi).tags.map Entry.name).length := by
    rw [List.length_map]; exact hk
  have heq : ((sectionAt m i hi).tags.map Entry.name)[j]
      = ((sectionAt m i hi).tags.map Entry.name)[k] := by
    rw [List.getElem_map, List.getElem_map]
    exact h
  exact hnd.getElem_inj_iff.mp heq

/-- C11: within each section of the static table the entry names are unique: for every
section `S` and every two distinct slot indices `j ≠ k` below `S.end - S.start`, the names
of `S.tags[j]` and `S.tags[k]` are different strings; consequently `getTagName` is
injective on the range `[start, end)` of each section. -/
theorem C11_entry_names_unique (m : MetadataHeader) (i : Nat) (S : Section)
    (hS : (DemoSections m)[i]? = some S) :
    (∀ j k : Nat, j < S.end_ - S.start → k < S.end_ - S.start → j ≠ k →
      ∃ (ej ek : Entry) (nj nk : String), S.tags[j]? = some ej ∧ S.tags[k]? = some ek ∧
        ej.name = some nj ∧ ek.name = some nk ∧ nj ≠ nk) ∧
    (∀ t u : Nat, t < 2 ^ 32 → u < 2 ^ 32 →
      m.VENDOR_SECTION_START ≤ t → m.VENDOR_SECTION_START ≤ u →
      S.start ≤ t → t < S.end_ → S.start ≤ u → u < S.end_ →
      getTagName m t = getTagName m u → t = u) := by
  obtain ⟨hi, rfl⟩ := DemoSections_getElem m i S hS
  obtain ⟨hs, he, -⟩ := sectionAt_fields m i hi
  have hlen : ∀ k : Nat, k < (sectionAt m i hi).end_ - (sectionAt m i hi).start →
      k < (sectionAt m i hi).tags.length := by
    intro k h
    rw [hs, he] at h
    omega
  constructor
  · intro j k hj hk hjk
    have hj2 := hlen j hj
    have hk2 := hlen k hk
    obtain ⟨⟨nj, hnj⟩, -⟩ := sectionAt_entries m i hi _ (List.getElem_mem hj2)
    obtain ⟨⟨nk, hnk⟩, -⟩ := sectionAt_entries m i hi _ (List.getElem_mem hk2)
    refine ⟨_, _, nj, nk, List.getElem?_eq_getElem hj2, List.getElem?_eq_getElem hk2,
      hnj, hnk, ?_⟩
    intro hc
    apply hjk
    apply sectionAt_name_inj m i hi j k hj2 hk2
    rw [hnj, hnk, hc]
  · intro t u ht hu hBt hBu hlo hhi hlo2 hhi2 heq
    obtain ⟨-, hent, hk⟩ := getEntry_declared m t i _ ht hBt hS hlo hhi
    obtain ⟨-, hent2, hk2⟩ := getEntry_declared m u i _ hu hBu hS hlo2 hhi2
    rw [(lookups_of_getEntry m t _ _ hent hk).1,
      (lookups_of_getEntry m u _ _ hent2 hk2).1] at heq
    have hidx := sectionAt_name_inj m i hi _ _ hk hk2 (Outcome.ret.inj heq)
    omega

/-- Instance of C11 at the Android header and section 0: the slots 1 and 2 carry
different names, and `getTagName` separates the tags `0x80000001` and `0x80000002`. -/
theorem C11_entry_names_unique_witness :
    ∃ S : Section, (DemoSections androidHeader)[0]? = some S ∧
      (∃ (ej ek : Entry) (nj nk : String), S.tags[1]? = some ej ∧ S.tags[2]? = some ek ∧
        ej.name = some nj ∧ ek.name = some nk ∧ nj ≠ nk) ∧
      getTagName androidHeader 0x80000001 ≠ getTagName androidHeader 0x80000002 := by
  have h := C11_entry_names_unique androidHeader 0 _
    (sectionAt_eq_getElem androidHeader 0 (by decide))
  exact ⟨_, sectionAt_eq_getElem androidHeader 0 (by decide),
    h.1 1 2 (by decide) (by decide) (by decide),
    fun hc => absurd (h.2 0x80000001 0x80000002 (by decide) (by decide) (by decide)
      (by decide) (by decide) (by decide) (by decide) (by decide) hc) (by decide)⟩

/-- The two outcomes of an entry-level lookup of a 32-bit tag: either `getEntry` rejects
the tag and both queries return their not-found value, or the tag lies in the declared
range of a section of the table and both queries return the fields of one named entry of
that section.  No lookup reads outside an entry array. -/
theorem lookup_cases (m : MetadataHeader) (t : Nat) (ht : t < 2 ^ 32) :
    (getEntry m t = none ∧ getTagName m t = Outcome.ret none ∧
      getTagType m t = Outcome.ret (-1)) ∨
    (∃ (i : Nat) (hi : i < DEMO_SECTION_COUNT) (e : Entry) (name : String),
      (sectionAt m i hi).start ≤ t ∧ t < (sectionAt m i hi).end_ ∧
      e ∈ (sectionAt m i hi).tags ∧ e.name = some name ∧ e.type < 256 ∧
      getTagName m t = Outcome.ret (some name) ∧
      getTagType m t = Outcome.ret (e.type : Int)) := by
  cases hent : getEntry m t with
  | none =>
    left
    refine ⟨rfl, ?_, ?_⟩
    · unfold getTagName
      rw [hent]
    · unfold getTagType
      rw [hent]
  | some p =>
    right
    obtain ⟨i, hi, -, hlo, hhi, rfl, hk, -⟩ := getEntry_some m t p ht hent
    obtain ⟨hname, htype⟩ := lookups_of_getEntry m t _ _ hent hk
    obtain ⟨⟨name, hn⟩, hty⟩ := sectionAt_entries m i hi _ (List.getElem_mem hk)
    exact ⟨i, hi, _, name, hlo, hhi, List.getElem_mem hk, hn, hty, by rw [hname, hn], htype⟩

/-- C12: enumeration and lookup agree on which tags are valid: a 32-bit tag `t` occurs in
the sequence `getAllTags` writes if and only if `getTagName t` returns a name other than
`NULL`, and if and only if `getTagType t` returns a value other than `-1`. -/
theorem C12_enumeration_agrees_with_lookup (m : MetadataHeader) (fuel : Nat)
    (self : VendorTags) (a : Nat)
    (hfit : m.VENDOR_SECTION_START + 3 * 65536 ≤ 2 ^ 32) (hfuel : 5 ≤ fuel) :
    ∃ r : AllTags, self.getAllTags m fuel (some a) = some r ∧
      ∀ t : Nat, t < 2 ^ 32 →
        (t ∈ r.written ↔ ∃ name : String, getTagName m t = Outcome.ret (some name)) ∧
        (t ∈ r.written ↔ ∃ v : Int, getTagType m t = Outcome.ret v ∧ v ≠ -1) := by
  refine ⟨_, getAllTags_eq m fuel self a hfuel, ?_⟩
  intro t ht
  simp only
  have hmem : t ∈ ((DemoSections m).flatMap fun s => List.range' s.start (s.end_ - s.start))
      ↔ ∃ (i : Nat) (hi : i < DEMO_SECTION_COUNT),
        (sectionAt m i hi).start ≤ t ∧ t < (sectionAt m i hi).end_ := by
    rw [List.mem_flatMap]
    constructor
    · rintro ⟨S, hS, hr⟩
      obtain ⟨i, hget⟩ := List.getElem?_of_mem hS
      obtain ⟨hi, rfl⟩ := DemoSections_getElem m i S hget
      rw [List.mem_range'_1] at hr
      exact ⟨i, hi, hr.1, by omega⟩
    · rintro ⟨i, hi, hlo, hhi⟩
      refine ⟨_, List.getElem?_mem (sectionAt_eq_getElem m i hi), ?_⟩
      rw [List.mem_range'_1]
      omega
  have hvalid : (∃ (i : Nat) (hi : i < DEMO_SECTION_COUNT),
        (sectionAt m i hi).start ≤ t ∧ t < (sectionAt m i hi).end_) →
      ∃ (e : Entry) (name : String), e.name = some name ∧
        getTagName m t = Outcome.ret (some name) ∧
        getTagType m t = Outcome.ret (e.type : Int) := by
    rintro ⟨i, hi, hlo, hhi⟩
    obtain ⟨hs, -, -⟩ := sectionAt_fields m i hi
    have hi3 : i < 3 := hi
    have hB : m.VENDOR_SECTION_START ≤ t := by rw [hs] at hlo; omega
    obtain ⟨-, hent, hk⟩ := getEntry_declared m t i _ ht hB
      (sectionAt_eq_getElem m i hi) hlo hhi
    obtain ⟨hname, htype⟩ := lookups_of_getEntry m t _ _ hent hk
    obtain ⟨⟨name, hn⟩, -⟩ := sectionAt_entries m i hi _ (List.getElem_mem hk)
    exact ⟨_, name, hn, by rw [hname, hn], htype⟩
  rw [hmem]
  constructor
  · constructor
    · intro h
      obtain ⟨e, name, -, hname, -⟩ := hvalid h
      exact ⟨name, hname⟩
    · rintro ⟨name, hname⟩
      rcases lookup_cases m t ht with ⟨-, hnone, -⟩ | ⟨i, hi, e, n, hlo, hhi, -⟩
      · rw [hnone] at hname
        exact Option.noConfusion (Outcome.ret.inj hname)
      · exact ⟨i, hi, hlo, hhi⟩
  · constructor
    · intro h
      obtain ⟨e, name, -, -, htype⟩ := hvalid h
      exact ⟨_, htype, by omega⟩
    · rintro ⟨v, hv, hne⟩
      rcases lookup_cases m t ht with ⟨-, -, hnone⟩ | ⟨i, hi, e, n, hlo, hhi, -⟩
      · rw [hnone] at hv
        exact absurd (Outcome.ret.inj hv).symm hne
      · exact ⟨i, hi, hlo, hhi⟩

/-- Instance of C12 at the Android header, with fuel 5, a fresh registry and destination
address 0, read at the tags `0x80010001` (valid) and `0x80010002` (not valid). -/
theorem C12_enumeration_agrees_with_lookup_witness :
    (androidHeader.VENDOR_SECTION_START + 3 * 65536 ≤ 2 ^ 32 ∧ 5 ≤ 5) ∧
    ∃ r : AllTags,
      (VendorTags.init androidHeader).getAllTags androidHeader 5 (some 0) = some r ∧
      (0x80010001 ∈ r.written ↔
        ∃ name : String, getTagName androidHeader 0x80010001 = Outcome.ret (some name)) ∧
      (0x80010002 ∈ r.written ↔
        ∃ v : Int, getTagType androidHeader 0x80010002 = Outcome.ret v ∧ v ≠ -1) := by
  obtain ⟨r, hr, h⟩ := C12_enumeration_agrees_with_lookup androidHeader 5
    (VendorTags.init androidHeader) 0 (by decide) (by decide)
  exact ⟨⟨by decide, by decide⟩, r, hr, (h 0x80010001 (by decide)).1,
    (h 0x80010002 (by decide)).2⟩

/-! ## Termination of the enumeration -/

/-- The enumeration loop of `getAllTags` is `allTagsOver` at the table `DemoSections`. -/
theorem allTagsLoop_eq_allTagsOver (m : MetadataHeader) (fuel : Nat) (out : List Nat) :
    allTagsLoop m fuel 0 out = allTagsOver fuel (DemoSections m) out := by
  have h3 : ∀ o : List Nat, allTagsLoop m fuel 3 o = allTagsOver fuel [] o := by
    intro o
    rw [allTagsLoop, dif_neg (by decide)]
    rfl
  have h2 : ∀ o : List Nat,
      allTagsLoop m fuel 2 o = allTagsOver fuel [sectionAt m 2 (by decide)] o := by
    intro o
    rw [allTagsLoop, dif_pos (by decide)]
    simp only [allTagsOver]
    cases tagLoop fuel (sectionAt m 2 (by decide)).end_ (sectionAt m 2 (by decide)).start o with
    | none => rfl
    | some o1 => exact h3 o1
  have h1 : ∀ o : List Nat,
      allTagsLoop m fuel 1 o
        = allTagsOver fuel [sectionAt m 1 (by decide), sectionAt m 2 (by decide)] o := by
    intro o
    rw [allTagsLoop, dif_pos (by decide)]
    rw [allTagsOver]
    cases tagLoop fuel (sectionAt m 1 (by decide)).end_ (sectionAt m 1 (by decide)).start o with
    | none => rfl
    | some o1 => exact h2 o1
  have hd : DemoSections m
      = [sectionAt m 0 (by decide), sectionAt m 1 (by decide), sectionAt m 2 (by decide)] :=
    rfl
  rw [allTagsLoop, dif_pos (by decide)]
  rw [hd, allTagsOver]
  cases tagLoop fuel (sectionAt m 0 (by decide)).end_ (sectionAt m 0 (by decide)).start out with
  | none => rfl
  | some o1 => exact h1 o1

/-- Over any table of sections with `uint32_t` bounds, and with more fuel than any
`uint32_t` difference, the two loops return: they store the range of each section in
turn. -/
theorem allTagsOver_eq (fuel : Nat) (hfuel : 2 ^ 32 ≤ fuel) :
    ∀ (table : List Section) (out : List Nat), (∀ s ∈ table, s.end_ < 2 ^ 32) →
      allTagsOver fuel table out
        = some (out ++ table.flatMap fun s => List.range' s.start (s.end_ - s.start)) := by
  intro table
  induction table with
  | nil => intro out _; simp [allTagsOver]
  | cons s rest ih =>
    intro out h
    have hs : s.end_ < 2 ^ 32 := h s (List.mem_cons_self _ _)
    rw [allTagsOver, tagLoop_eq fuel s.end_ hs s.start out (by omega)]
    simp only
    rw [ih _ (fun x hx => h x (List.mem_cons_of_mem _ hx))]
    simp only [List.flatMap_cons, List.append_assoc]

/-- C13: `getAllTags` always completes.  For arbitrary 32-bit `start` and `end`, `end`
as large as `2 ^ 32 - 1` and `start > end` included, the inner loop
`for (tag = start; tag < end; tag++)` terminates, `tag++` never wraps, and it writes
exactly `end - start` elements when `start ≤ end` and none when `start > end`; hence the
two loops complete over every section table, and so does every call of `getAllTags`. -/
theorem C13_enumeration_always_completes (fuel : Nat) (hfuel : 2 ^ 32 ≤ fuel) :
    (∀ (start stop : Nat) (out : List Nat) (f : Nat), start < 2 ^ 32 → stop < 2 ^ 32 →
      stop - start < f →
      ∃ written : List Nat, tagLoop f stop start out = some (out ++ written) ∧
        tagLoop fuel stop start out = some (out ++ written) ∧
        (∀ x ∈ written, x + 1 < 2 ^ 32 ∧ (x + 1) % 2 ^ 32 = x + 1) ∧
        (start ≤ stop →
          written = List.range' start (stop - start) ∧ written.length = stop - start) ∧
        (stop < start → written = [])) ∧
    (∀ (table : List Section) (out : List Nat),
      (∀ s ∈ table, s.start < 2 ^ 32 ∧ s.end_ < 2 ^ 32) →
      ∃ written : List Nat, allTagsOver fuel table out = some (out ++ written) ∧
        written = (table.flatMap fun s => List.range' s.start (s.end_ - s.start)) ∧
        written.length = (table.map fun s => s.end_ - s.start).sum) ∧
    (∀ (m : MetadataHeader) (out : List Nat),
      allTagsLoop m fuel 0 out = allTagsOver fuel (DemoSections m) out) ∧
    (∀ (m : MetadataHeader) (self : VendorTags) (tag_array : Option Nat),
      ∃ r : AllTags, self.getAllTags m fuel tag_array = some r) := by
  refine ⟨?_, ?_, fun m out => allTagsLoop_eq_allTagsOver m fuel out, ?_⟩
  · intro start stop out f hstart hstop hf
    refine ⟨List.range' start (stop - start), tagLoop_eq f stop hstop start out hf,
      tagLoop_eq fuel stop hstop start out (by omega), ?_, ?_, ?_⟩
    · intro x hx
      rw [List.mem_range'_1] at hx
      omega
    · intro _
      exact ⟨rfl, List.length_range' _ _ _⟩
    · intro hlt
      have h0 : stop - start = 0 := by omega
      rw [h0]
      rfl
  · intro table out h
    refine ⟨_, allTagsOver_eq fuel hfuel table out (fun s hs => (h s hs).2), rfl, ?_⟩
    rw [List.length_flatMap]
    congr 1
    apply List.map_congr_left
    intro s _
    simp only [Function.comp, List.length_range']
  · intro m self tag_array
    cases tag_array with
    | none => exact ⟨_, rfl⟩
    | some a => exact ⟨_, getAllTags_eq m fuel self a (by omega)⟩

/-- Instance of C13 with fuel `2 ^ 32`: the loop from `2 ^ 32 - 3` to `2 ^ 32 - 1` stores
two values, and the loop from 7 to 3 stores none. -/
theorem C13_enumeration_always_completes_witness :
    (2 ^ 32 ≤ 2 ^ 32 ∧ 4294967293 < 2 ^ 32 ∧ 4294967295 < 2 ^ 32 ∧
      4294967295 - 4294967293 < 3 ∧ 7 < 2 ^ 32 ∧ 3 < 2 ^ 32 ∧ 3 - 7 < 3) ∧
    (∃ written : List Nat, tagLoop 3 4294967295 4294967293 [] = some ([] ++ written) ∧
      tagLoop (2 ^ 32) 4294967295 4294967293 [] = some ([] ++ written) ∧
      (∀ x ∈ written, x + 1 < 2 ^ 32 ∧ (x + 1) % 2 ^ 32 = x + 1) ∧
      (4294967293 ≤ 4294967295 →
        written = List.range' 4294967293 (4294967295 - 4294967293) ∧
        written.length = 4294967295 - 4294967293) ∧
      (4294967295 < 4294967293 → written = [])) ∧
    (∃ written : List Nat, tagLoop 3 3 7 [] = some ([] ++ written) ∧
      tagLoop (2 ^ 32) 3 7 [] = some ([] ++ written) ∧
      (∀ x ∈ written, x + 1 < 2 ^ 32 ∧ (x + 1) % 2 ^ 32 = x + 1) ∧
      (7 ≤ 3 → written = List.range' 7 (3 - 7) ∧ written.length = 3 - 7) ∧
      (3 < 7 → written = [])) :=
  ⟨⟨by decide, by decide, by decide, by decide, by decide, by decide, by decide⟩,
    (C13_enumeration_always_completes (2 ^ 32) (by decide)).1 4294967293 4294967295 [] 3
      (by decide) (by decide) (by decide),
    (C13_enumeration_always_completes (2 ^ 32) (by decide)).1 7 3 [] 3
      (by decide) (by decide) (by decide)⟩

/-! ## Memory safety and the sentinel -/

/-- C14: entry indexing is always in bounds although `getEntry` checks only the upper
bound: for every 32-bit tag `t` for which `getEntry` does not return `NULL`, with
`S = getSection t`, the subtraction `t - S.start` does not wrap (`t ≥ S.start`) and the
index satisfies `0 ≤ t - S.start < S.end - S.start`, the length of `S.tags`; the read of
`section->tags[index]` never leaves the entry array. -/
theorem C14_entry_index_in_bounds (m : MetadataHeader) (t : Nat) (p : EntryPtr)
    (ht : t < 2 ^ 32) (h : getEntry m t = some p) :
    ∃ S : Section, getSection m t = some S ∧ S ∈ DemoSections m ∧ p.tags = S.tags ∧
      S.start ≤ t ∧ sub32 t S.start = t - S.start ∧
      p.index = ((t - S.start : Nat) : Int) ∧ 0 ≤ p.index ∧
      t - S.start < S.end_ - S.start ∧ S.end_ - S.start = S.tags.length ∧
      (∃ e : Entry, p.read = some e ∧ S.tags[t - S.start]? = some e) ∧
      getTagName m t ≠ Outcome.fault ∧ getTagType m t ≠ Outcome.fault := by
  obtain ⟨i, hi, hsec, hlo, hhi, rfl, hk, hsize⟩ := getEntry_some m t p ht h
  obtain ⟨hname, htype⟩ := lookups_of_getEntry m t _ _ h hk
  refine ⟨_, hsec, List.getElem?_mem (sectionAt_eq_getElem m i hi), rfl, hlo, ?_, rfl,
    Int.natCast_nonneg _, by omega, hsize, ?_, ?_, ?_⟩
  · unfold sub32; omega
  · refine ⟨_, ?_, List.getElem?_eq_getElem hk⟩
    rw [EntryPtr.read_natCast]
    exact List.getElem?_eq_getElem hk
  · rw [hname]
    exact fun hc => Outcome.noConfusion hc
  · rw [htype]
    exact fun hc => Outcome.noConfusion hc

/-- Instance of C14 at the Android header and the tag `0x80000003`, the last tag of
section 0: the pointer designates slot 3 of an array of 4 entries. -/
theorem C14_entry_index_in_bounds_witness :
    ∃ p : EntryPtr, (0x80000003 < 2 ^ 32 ∧ getEntry androidHeader 0x80000003 = some p) ∧
      p.index = 3 ∧ p.tags.length = 4 ∧
      ∃ S : Section, getSection androidHeader 0x80000003 = some S ∧
        S ∈ DemoSections androidHeader ∧ p.tags = S.tags ∧
        S.start ≤ 0x80000003 ∧ sub32 0x80000003 S.start = 0x80000003 - S.start ∧
        p.index = ((0x80000003 - S.start : Nat) : Int) ∧ 0 ≤ p.index ∧
        0x80000003 - S.start < S.end_ - S.start ∧ S.end_ - S.start = S.tags.length ∧
        (∃ e : Entry, p.read = some e ∧ S.tags[0x80000003 - S.start]? = some e) ∧
        getTagName androidHeader 0x80000003 ≠ Outcome.fault ∧
        getTagType androidHeader 0x80000003 ≠ Outcome.fault :=
  have hp : getEntry androidHeader 0x80000003
      = some ⟨(sectionAt androidHeader 0 (by decide)).tags, 3⟩ := by decide
  ⟨_, ⟨by decide, hp⟩, rfl, by decide,
    C14_entry_index_in_bounds androidHeader 0x80000003 _ (by decide) hp⟩

/-- C15: the two entry-level queries agree on failure and the numeric sentinel is
unambiguous: for every 32-bit tag `t`, `getTagType t` is `-1` if and only if
`getTagName t` is `NULL`, and whenever `getTagType t` is not `-1` its value is the
`uint8_t` type of a declared entry, hence in `0..255` and never the sentinel `-1`. -/
theorem C15_sentinel_unambiguous (m : MetadataHeader) (t : Nat) (ht : t < 2 ^ 32) :
    (getTagType m t = Outcome.ret (-1) ↔ getTagName m t = Outcome.ret none) ∧
    (∀ v : Int, getTagType m t = Outcome.ret v → v ≠ -1 →
      0 ≤ v ∧ v ≤ 255 ∧
      ∃ (S : Section) (e : Entry), S ∈ DemoSections m ∧ e ∈ S.tags ∧ e.type < 256 ∧
        v = (e.type : Int)) ∧
    (∃ v : Int, getTagType m t = Outcome.ret v) ∧
    (∃ name : Option String, getTagName m t = Outcome.ret name) := by
  rcases lookup_cases m t ht with ⟨-, hname, htype⟩ |
    ⟨i, hi, e, name, -, -, he, hn, hty, hname, htype⟩
  · refine ⟨⟨fun _ => hname, fun _ => htype⟩, ?_, ⟨_, htype⟩, ⟨_, hname⟩⟩
    intro v hv hne
    rw [htype] at hv
    exact absurd (Outcome.ret.inj hv).symm hne
  · refine ⟨⟨?_, ?_⟩, ?_, ⟨_, htype⟩, ⟨_, hname⟩⟩
    · intro h
      rw [htype] at h
      have := Outcome.ret.inj h
      omega
    · intro h
      rw [hname] at h
      exact Option.noConfusion (Outcome.ret.inj h)
    · intro v hv _
      rw [htype] at hv
      have hv2 := Outcome.ret.inj hv
      refine ⟨by omega, by omega, _, e, List.getElem?_mem (sectionAt_eq_getElem m i hi),
        he, hty, hv2.symm⟩

/-- Instance of C15 at the Android header: the tag `0x80010000` has type code 3, the tag
`0x80010002` has none. -/
theorem C15_sentinel_unambiguous_witness :
    (0x80010000 < 2 ^ 32 ∧ 0x80010002 < 2 ^ 32) ∧
    getTagType androidHeader 0x80010000 = Outcome.ret 3 ∧
    ((0 : Int) ≤ 3 ∧ (3 : Int) ≤ 255 ∧
      ∃ (S : Section) (e : Entry), S ∈ DemoSections androidHeader ∧ e ∈ S.tags ∧
        e.type < 256 ∧ (3 : Int) = (e.type : Int)) ∧
    (getTagType androidHeader 0x80010002 = Outcome.ret (-1) ↔
      getTagName androidHeader 0x80010002 = Outcome.ret none) :=
  ⟨⟨by decide, by decide⟩, by decide,
    (C15_sentinel_unambiguous androidHeader 0x80010000 (by decide)).2.1 3 (by decide)
      (by decide),
    (C15_sentinel_unambiguous androidHeader 0x80010002 (by decide)).1⟩

/-! ## The window of `getSection` -/

/-- C16: `getSection` accepts exactly one contiguous window of the 32-bit namespace and
its guard `tag < VENDOR_SECTION_START` is redundant for the result.  With the three
blocks inside the 32-bit space (as for `VENDOR_SECTION_START = 0x80000000` and
`DEMO_SECTION_COUNT = 3`), for every 32-bit tag `t`: `getSection t` is not `NULL` if and
only if `VENDOR_SECTION_START ≤ t < VENDOR_SECTION_START + 3 * 65536`; when
`t < VENDOR_SECTION_START` the wrapped value `((t - VENDOR_SECTION_START) mod 2 ^ 32) >> 16`
is at least `DEMO_SECTION_COUNT`; and the variant of `getSection` without the first guard
returns the same result. -/
theorem C16_single_window_guard_redundant (m : MetadataHeader)
    (hfit : m.VENDOR_SECTION_START + 3 * 65536 ≤ 2 ^ 32) (t : Nat) (ht : t < 2 ^ 32) :
    ((∃ S : Section, getSection m t = some S) ↔
      m.VENDOR_SECTION_START ≤ t ∧
        t < m.VENDOR_SECTION_START + DEMO_SECTION_COUNT * 65536) ∧
    sub32 t m.VENDOR_SECTION_START
      = (((t : Int) - (m.VENDOR_SECTION_START : Int)) % 2 ^ 32).toNat ∧
    (t < m.VENDOR_SECTION_START →
      DEMO_SECTION_COUNT ≤ sub32 t m.VENDOR_SECTION_START >>> 16) ∧
    getSectionUnguarded m t = getSection m t := by
  have hcount : DEMO_SECTION_COUNT = 3 := rfl
  have hwrap : t < m.VENDOR_SECTION_START →
      DEMO_SECTION_COUNT ≤ sub32 t m.VENDOR_SECTION_START >>> 16 := by
    intro hlt
    rw [hcount]
    unfold sub32
    rw [Nat.shiftRight_eq_div_pow]
    omega
  refine ⟨⟨?_, ?_⟩, ?_, hwrap, ?_⟩
  · rintro ⟨S, hS⟩
    obtain ⟨i, hi, -, hlo, hhi⟩ := getSection_some m t S ht hS
    rw [hcount] at hi ⊢
    omega
  · rintro ⟨hlo, hhi⟩
    rw [hcount] at hhi
    have hi : (t - m.VENDOR_SECTION_START) / 65536 < DEMO_SECTION_COUNT := by
      rw [hcount]; omega
    exact ⟨_, getSection_block m t ((t - m.VENDOR_SECTION_START) / 65536) ht hi
      (by omega) (by omega)⟩
  · unfold sub32
    omega
  · unfold getSectionUnguarded getSection
    by_cases hlt : t < m.VENDOR_SECTION_START
    · simp only [hlt, if_true, ge_iff_le, hwrap hlt, dite_true]
    · simp only [hlt, if_false]

/-- Instance of C16 at the Android header: `0x7fffffff` is below the window and its
wrapped section index `0xffff` is at least 3; `0x8002ffff` is the last tag inside. -/
theorem C16_single_window_guard_redundant_witness :
    (androidHeader.VENDOR_SECTION_START + 3 * 65536 ≤ 2 ^ 32 ∧ 0x7fffffff < 2 ^ 32 ∧
      0x8002ffff < 2 ^ 32 ∧ 0x7fffffff < androidHeader.VENDOR_SECTION_START) ∧
    androidHeader.VENDOR_SECTION_START = 0x80000000 ∧ DEMO_SECTION_COUNT = 3 ∧
    DEMO_SECTION_COUNT ≤ sub32 0x7fffffff androidHeader.VENDOR_SECTION_START >>> 16 ∧
    getSectionUnguarded androidHeader 0x7fffffff = getSection androidHeader 0x7fffffff ∧
    ((∃ S : Section, getSection androidHeader 0x8002ffff = some S) ↔
      androidHeader.VENDOR_SECTION_START ≤ 0x8002ffff ∧
        0x8002ffff < androidHeader.VENDOR_SECTION_START + DEMO_SECTION_COUNT * 65536) :=
  ⟨⟨by decide, by decide, by decide, by decide⟩, rfl, rfl,
    (C16_single_window_guard_redundant androidHeader (by decide) 0x7fffffff
      (by decide)).2.2.1 (by decide),
    (C16_single_window_guard_redundant androidHeader (by decide) 0x7fffffff (by decide)).2.2.2,
    (C16_single_window_guard_redundant androidHeader (by decide) 0x8002ffff (by decide)).1⟩

end default_camera_hal
